import Mathlib

/-!
IMS Zeuz demo: multipart form builder and session search tracker.

A shallow embedding of

* `Source/IMSZeuzAPI/Private/OpenAPIHelpers.cpp`
  (`HttpFileInput`, `HttpMultipartFormData`), and
* `Source/ShooterGame/Private/Online/ShooterGameSession.cpp`
  (`AShooterGameSession`: create-session / list-sessions callbacks and the
  matchmaking cursor),

followed by the properties proved about them.

Conventions of the embedding:

* `FString` / `const TCHAR*` values are Lean `String`s (sequences of Unicode
  scalar values); `TArray<uint8>` is `List UInt8`. A `const TCHAR*` parameter
  is its text, which holds no U+0000; where the source hands an `FString`
  argument of a caller to a `const TCHAR*` reader with `operator*`, the text
  is cut at its first U+0000 (`toTCHAR`).
* Mutable objects are passed explicitly: every member function takes the
  object and returns the updated object, together with whatever it emits
  (log lines, delegate broadcasts, calls on the online subsystem).
* Services of the engine that the repository only calls (GUID generator, file
  loading, path helpers, online subsystem availability) are fields of a
  parameter structure, so every theorem holds for all their behaviours.
* `int32` values are `Int`; none of the modelled code paths can overflow.
-/

set_option autoImplicit false

/-! ## Engine primitives -/

/-- The conversion `FTCHARToUTF8`: the UTF-8 bytes of a string. -/
def utf8 (s : String) : List UInt8 :=
  s.data.flatMap String.utf8EncodeChar

/-- The conversion `*S` of an `FString` to `const TCHAR*`, as its readers see
it: a zero-terminated text, that is the characters of `S` before its first
U+0000, and all of `S` when it holds none. -/
def toTCHAR (S : String) : String :=
  String.mk (S.data.takeWhile (fun c => c ≠ Char.ofNat 0))

/-- The comparison behind `FString::operator==` and `operator!=`
(`Containers/UnrealString.h`: `FPlatformString::Stricmp(*Lhs, Rhs) == 0`,
documented there as case insensitive): the two strings agree after folding
the ASCII letters `A`..`Z` to lower case. -/
def FStringEq (a b : String) : Bool :=
  a.data.map Char.toLower == b.data.map Char.toLower

namespace IMSZeuzAPI

/-- Engine services used by `OpenAPIHelpers.cpp`. -/
structure Engine where
  /-- The string `FGuid::NewGuid().ToString(EGuidFormats::Short)` yields on
  its `n`-th invocation (counted from 0). -/
  NewGuid : Nat → String
  /-- The call `FFileHelper::LoadFileToArray`: the bytes of the file at a
  path, `none` when loading fails. -/
  LoadFileToArray : String → Option (List UInt8)
  /-- The helper `FPaths::GetCleanFilename`. -/
  GetCleanFilename : String → String
  /-- The helper `FPlatformHttp::GetMimeType`. -/
  GetMimeType : String → String

/-! ### `HttpFileInput` -/

/-- The class `HttpFileInput`: a path and a content type. Both members are
assigned only from `const TCHAR*` values (`SetFilePath`, `SetContentType`) or
from `FPlatformHttp::GetMimeType`. -/
structure HttpFileInput where
  FilePath : String
  ContentType : String
deriving DecidableEq, Repr

namespace HttpFileInput

/-- The member `HttpFileInput::SetFilePath(const TCHAR*)`: the content type is
derived from the path only when none has been set yet. The `FString` overload
forwards `*InFilePath` to this one. -/
def SetFilePath (E : Engine) (InFilePath : String) (f : HttpFileInput) : HttpFileInput :=
  let f1 := { f with FilePath := InFilePath }
  if f1.ContentType = "" then { f1 with ContentType := E.GetMimeType InFilePath } else f1

/-- The constructor `HttpFileInput::HttpFileInput(InFilePath)`. -/
def ofPath (E : Engine) (InFilePath : String) : HttpFileInput :=
  SetFilePath E InFilePath { FilePath := "", ContentType := "" }

/-- The member `HttpFileInput::SetContentType`. -/
def SetContentType (InContentType : String) (f : HttpFileInput) : HttpFileInput :=
  { f with ContentType := InContentType }

/-- The member `HttpFileInput::GetFilename`. -/
def GetFilename (E : Engine) (f : HttpFileInput) : String :=
  E.GetCleanFilename f.FilePath

end HttpFileInput

/-! ### `HttpMultipartFormData` -/

/-- The class `HttpMultipartFormData`. `GuidCalls` is not a member of the
class: it counts the GUIDs drawn from the engine so far, so that two draws are
two (possibly different) values of `Engine.NewGuid`. -/
structure HttpMultipartFormData where
  Boundary : String
  FormData : List UInt8
  GuidCalls : Nat
deriving DecidableEq, Repr

/-- The request object as far as `SetupHttpRequest` touches it. -/
structure HttpRequest where
  Verb : String
  Headers : List (String × String)
  Content : List UInt8
deriving DecidableEq, Repr

namespace HttpRequest

/-- The call `IHttpRequest::SetHeader`: the header gets the given value,
replacing an earlier value of the same header. -/
def SetHeader (HeaderName HeaderValue : String) (r : HttpRequest) : HttpRequest :=
  { r with Headers := (HeaderName, HeaderValue) :: r.Headers.filter (fun h => h.1 ≠ HeaderName) }

/-- The call `IHttpRequest::GetHeader`. -/
def GetHeader (HeaderName : String) (r : HttpRequest) : Option String :=
  (r.Headers.find? (fun h => h.1 = HeaderName)).map Prod.snd

/-- The call `IHttpRequest::SetContent`. -/
def SetContent (ContentPayload : List UInt8) (r : HttpRequest) : HttpRequest :=
  { r with Content := ContentPayload }

end HttpRequest

namespace HttpMultipartFormData

/-- The constant `HttpMultipartFormData::Delimiter`. -/
def Delimiter : String := "--"

/-- The constant `HttpMultipartFormData::Newline`. -/
def Newline : String := "\r\n"

/-- A freshly constructed form: no boundary, no bytes; `n` GUIDs have been
drawn from the engine before. -/
def fresh (n : Nat) : HttpMultipartFormData :=
  { Boundary := "", FormData := [], GuidCalls := n }

/-- The member `SetBoundary`: `checkf` aborts (`none`) when a boundary is
already present. -/
def SetBoundary (InBoundary : String) (s : HttpMultipartFormData) :
    Option HttpMultipartFormData :=
  if s.Boundary = "" then some { s with Boundary := InBoundary } else none

/-- The member `GetBoundary`: generates the boundary when it is empty, and
returns it. The member is `const` in the source but writes the `mutable`
field, so the updated object is returned as well. -/
def GetBoundary (E : Engine) (s : HttpMultipartFormData) :
    String × HttpMultipartFormData :=
  if s.Boundary = "" then
    let s1 := { s with Boundary := E.NewGuid s.GuidCalls, GuidCalls := s.GuidCalls + 1 }
    (s1.Boundary, s1)
  else
    (s.Boundary, s)

/-- The member `AppendString`. -/
def AppendString (Str : String) (s : HttpMultipartFormData) : HttpMultipartFormData :=
  { s with FormData := s.FormData ++ utf8 Str }

/-- The statement `AppendString(*GetBoundary())`. -/
def AppendBoundary (E : Engine) (s : HttpMultipartFormData) : HttpMultipartFormData :=
  let r := GetBoundary E s
  AppendString r.1 r.2

/-- The member `SetupHttpRequest`: returns the form, the request and the log
lines written. -/
def SetupHttpRequest (E : Engine) (Request : HttpRequest) (s : HttpMultipartFormData) :
    HttpMultipartFormData × HttpRequest × List String :=
  let log :=
    if !FStringEq Request.Verb "POST" then
      ["Expected POST verb when using multipart form data"]
    else []
  -- Append final boundary
  let s := AppendString Delimiter s
  let s := AppendBoundary E s
  let s := AppendString Delimiter s
  let r := GetBoundary E s
  let s := r.2
  let Request :=
    Request.SetHeader "Content-Type" ("multipart/form-data; boundary=" ++ r.1)
  let Request := Request.SetContent s.FormData
  (s, Request, log)

/-- The member `AddStringPart`. -/
def AddStringPart (E : Engine) (Name Data : String) (s : HttpMultipartFormData) :
    HttpMultipartFormData :=
  -- Add boundary
  let s := AppendString Delimiter s
  let s := AppendBoundary E s
  let s := AppendString Newline s
  -- Add header
  let s := AppendString ("Content-Disposition: form-data; name = \"" ++ Name ++ "\"") s
  let s := AppendString Newline s
  let s := AppendString "Content-Type: text/plain; charset=utf-8" s
  let s := AppendString Newline s
  -- Add header to body splitter
  let s := AppendString Newline s
  -- Add Data
  let s := AppendString Data s
  AppendString Newline s

/-- The member `AddJsonPart`. `JsonString` is an `FString`; the statement
`AppendString(*JsonString)` hands it over as `const TCHAR*`. -/
def AddJsonPart (E : Engine) (Name JsonString : String) (s : HttpMultipartFormData) :
    HttpMultipartFormData :=
  let s := AppendString Delimiter s
  let s := AppendBoundary E s
  let s := AppendString Newline s
  let s := AppendString ("Content-Disposition: form-data; name=\"" ++ Name ++ "\"") s
  let s := AppendString Newline s
  let s := AppendString "Content-Type: application/json; charset=utf-8" s
  let s := AppendString Newline s
  let s := AppendString Newline s
  let s := AppendString (toTCHAR JsonString) s
  AppendString Newline s

/-- The member `AddBinaryPart`. -/
def AddBinaryPart (E : Engine) (Name : String) (ByteArray : List UInt8)
    (s : HttpMultipartFormData) : HttpMultipartFormData :=
  let s := AppendString Delimiter s
  let s := AppendBoundary E s
  let s := AppendString Newline s
  let s := AppendString ("Content-Disposition: form-data; name=\"" ++ Name ++ "\"") s
  let s := AppendString Newline s
  let s := AppendString "Content-Type: application/octet-stream" s
  let s := AppendString Newline s
  let s := AppendString Newline s
  let s := { s with FormData := s.FormData ++ ByteArray }
  AppendString Newline s

/-- The member `AddFilePart`: returns the form and the log lines written. The
member returns `void`, so the log is the only trace of a failed load. -/
def AddFilePart (E : Engine) (Name : String) (File : HttpFileInput)
    (s : HttpMultipartFormData) : HttpMultipartFormData × List String :=
  match E.LoadFileToArray File.FilePath with
  | none => (s, ["Failed to load file (" ++ File.FilePath ++ ")"])
  | some FileContents =>
    let s := AppendString Delimiter s
    let s := AppendBoundary E s
    let s := AppendString Newline s
    let s := AppendString
      ("Content-Disposition: form-data; name=\"" ++ Name ++ "\"; filename=\""
        ++ File.GetFilename E ++ "\"") s
    let s := AppendString Newline s
    let s := AppendString ("Content-Type: " ++ File.ContentType) s
    let s := AppendString Newline s
    let s := AppendString Newline s
    let s := { s with FormData := s.FormData ++ FileContents }
    (AppendString Newline s, [])

end HttpMultipartFormData

/-! ### Sequences of calls on one form -/

/-- One call of a part-adding member. -/
inductive PartCall where
  | string (Name Data : String)
  | json (Name JsonString : String)
  | binary (Name : String) (ByteArray : List UInt8)
  | file (Name : String) (File : HttpFileInput)
deriving DecidableEq, Repr

/-- Performs one part-adding call. -/
def PartCall.apply (E : Engine) (c : PartCall) (s : HttpMultipartFormData) :
    HttpMultipartFormData :=
  match c with
  | .string Name Data => s.AddStringPart E Name Data
  | .json Name JsonString => s.AddJsonPart E Name JsonString
  | .binary Name ByteArray => s.AddBinaryPart E Name ByteArray
  | .file Name File => (s.AddFilePart E Name File).1

/-- Performs the calls from left to right. -/
def addParts (E : Engine) (cs : List PartCall) (s : HttpMultipartFormData) :
    HttpMultipartFormData :=
  cs.foldl (fun acc c => c.apply E acc) s

/-- One call of a member that may read the boundary after it exists: a
part-adding call, `SetupHttpRequest` on some request, or `GetBoundary`. -/
inductive FormCall where
  | part (c : PartCall)
  | setup (Request : HttpRequest)
  | boundary
deriving DecidableEq, Repr

/-- Performs one call on the form. -/
def FormCall.apply (E : Engine) (c : FormCall) (s : HttpMultipartFormData) :
    HttpMultipartFormData :=
  match c with
  | .part p => p.apply E s
  | .setup Request => (s.SetupHttpRequest E Request).1
  | .boundary => (s.GetBoundary E).2

/-- Performs the calls from left to right. -/
def runCalls (E : Engine) (cs : List FormCall) (s : HttpMultipartFormData) :
    HttpMultipartFormData :=
  cs.foldl (fun acc c => c.apply E acc) s

/-! ### The layout of one part, in the words of the specification -/

/-- One MIME part: boundary line, `Content-Disposition` line, `Content-Type`
line, empty line, payload, and a trailing line break. -/
def mimePart (Boundary Disposition ContentType : String) (Payload : List UInt8) :
    List UInt8 :=
  utf8 "--" ++ utf8 Boundary ++ utf8 "\r\n"
    ++ utf8 Disposition ++ utf8 "\r\n"
    ++ utf8 ContentType ++ utf8 "\r\n"
    ++ utf8 "\r\n"
    ++ Payload
    ++ utf8 "\r\n"

/-- The closing boundary. -/
def closingBoundary (Boundary : String) : List UInt8 :=
  utf8 "--" ++ utf8 Boundary ++ utf8 "--"

/-- Whether a part-adding call writes a part: every call does, except
`AddFilePart` on a file that cannot be loaded. -/
def PartCall.writesPart (E : Engine) : PartCall → Bool
  | .file _ File => (E.LoadFileToArray File.FilePath).isSome
  | _ => true

/-- The section a part-adding call contributes under a given boundary token;
nothing for `AddFilePart` on a file that cannot be loaded. -/
def PartCall.mimeSection (E : Engine) (Boundary : String) : PartCall → List UInt8
  | .string Name Data =>
    mimePart Boundary ("Content-Disposition: form-data; name = \"" ++ Name ++ "\"")
      "Content-Type: text/plain; charset=utf-8" (utf8 Data)
  | .json Name JsonString =>
    mimePart Boundary ("Content-Disposition: form-data; name=\"" ++ Name ++ "\"")
      "Content-Type: application/json; charset=utf-8" (utf8 (toTCHAR JsonString))
  | .binary Name ByteArray =>
    mimePart Boundary ("Content-Disposition: form-data; name=\"" ++ Name ++ "\"")
      "Content-Type: application/octet-stream" ByteArray
  | .file Name File =>
    match E.LoadFileToArray File.FilePath with
    | none => []
    | some FileContents =>
      mimePart Boundary
        ("Content-Disposition: form-data; name=\"" ++ Name ++ "\"; filename=\""
          ++ E.GetCleanFilename File.FilePath ++ "\"")
        ("Content-Type: " ++ File.ContentType) FileContents

/-- The body layout "one boundary-delimited section per call, then the closing
boundary": the buffer splits into `n` consecutive sections, each starting with
the boundary line, followed by the closing boundary. -/
def OneSectionPerCall (Boundary : String) (n : Nat) (Buffer : List UInt8) : Prop :=
  ∃ Sections : List (List UInt8),
    Sections.length = n
    ∧ (∀ Section ∈ Sections, utf8 "--" ++ utf8 Boundary ++ utf8 "\r\n" <+: Section)
    ∧ Buffer = Sections.flatten ++ closingBoundary Boundary

end IMSZeuzAPI

/-! ## `AShooterGameSession` -/

namespace ShooterGame

/-- The model `IMSSessionManagerAPI::OpenAPIV0Port`, with the two members of
`OpenAPIPayloadPortV0`: a port name and an `int32` port number. -/
structure OpenAPIV0Port where
  Name : String
  Port : Int
deriving DecidableEq, Repr

/-- The response handed to `OnCreateSessionComplete`: `IsSuccessful()` and the
two optional members of `Content` that the callback reads. -/
structure CreateSessionV0Response where
  Successful : Bool
  Address : Option String
  Ports : Option (List OpenAPIV0Port)
deriving DecidableEq, Repr

/-- The response handed to `OnFindSessionsComplete`: `IsSuccessful()` and
`Content.Sessions`. -/
structure ListSessionsV0Response (τ : Type) where
  Successful : Bool
  Sessions : List τ
deriving DecidableEq, Repr

/-- The enumeration `SearchState`. -/
inductive SearchState where
  | NotStarted
  | InProgress
  | Done
  | Failed
deriving DecidableEq, Repr

/-- The class `SessionSearch` behind `CurrentSessionSearch`. -/
structure SessionSearch (σ : Type) where
  SearchResults : List σ
  MaxSearchResults : Int
  SearchState : SearchState
deriving DecidableEq, Repr

/-- What a member function emits, in program order. `ρ` is the type of the
search results handed to `IOnlineSession::JoinSession`. -/
inductive Event (ρ : Type) where
  /-- a line written with `UE_LOG` -/
  | Log (Line : String)
  /-- the call `OnCreateSessionComplete().Broadcast(SessionAddress, bWasSuccessful)` -/
  | CreateSessionBroadcast (SessionAddress : String) (bWasSuccessful : Bool)
  /-- the call `OnFindSessionsComplete().Broadcast(bWasSuccessful)` -/
  | FindSessionsBroadcast (bWasSuccessful : Bool)
  /-- the call `Sessions->AddOnJoinSessionCompleteDelegate_Handle(..)` -/
  | AddOnJoinSessionCompleteDelegate
  /-- the call `Sessions->JoinSession(*UserId, SessionName, SearchResult)` -/
  | JoinSession (SearchResult : ρ)
  /-- the call `SessionManagerAPI->ListSessionsV0(Request, ..)` -/
  | ListSessionsV0
deriving DecidableEq, Repr

/-- The search results for which a join was requested, in order. -/
def joinRequests {ρ : Type} (es : List (Event ρ)) : List ρ :=
  es.filterMap fun e =>
    match e with
    | .JoinSession r => some r
    | _ => none

/-- What `Online::GetSubsystem(GetWorld())` offers at the time of a call. -/
structure OnlineSubsystem where
  /-- the subsystem pointer is not null -/
  OnlineSub : Bool
  /-- the value `OnlineSub->GetSessionInterface().IsValid()` -/
  SessionsValid : Bool
deriving DecidableEq, Repr

/-- The members of `AShooterGameSession` that the modelled functions touch.
`σ` is the type `Session`, `ρ` the type of the entries of
`SearchSettings->SearchResults`. -/
structure AShooterGameSession (σ ρ : Type) where
  /-- the member `CurrentSessionParams.BestSessionIdx` -/
  BestSessionIdx : Int
  /-- the value `CurrentSessionParams.UserId.IsValid()` -/
  UserIdValid : Bool
  /-- the shared pointer `SearchSettings`: `none` is `NULL`, `some rs` points
  to settings whose `SearchResults` are `rs` -/
  SearchSettings : Option (List ρ)
  /-- the object behind `CurrentSessionSearch` -/
  CurrentSessionSearch : SessionSearch σ
deriving DecidableEq, Repr

namespace AShooterGameSession

variable {σ ρ τ : Type}

/-- The callback `OnCreateSessionComplete`; the object is not changed, so only
the emitted events are returned. `FindByPredicate` yields the first port
accepted by the predicate, `FString::FromInt` the decimal rendering. -/
def OnCreateSessionComplete (Response : CreateSessionV0Response) : List (Event ρ) :=
  match Response.Successful, Response.Address, Response.Ports with
  | true, some IP, some Ports =>
    match Ports.find? (fun PortResponse => FStringEq PortResponse.Name "GamePort") with
    | some GamePortResponse =>
      let SessionAddress := IP ++ ":" ++ toString GamePortResponse.Port
      [.Log ("Successfully created a session. Connect to session address: '"
          ++ SessionAddress ++ "'"),
       .CreateSessionBroadcast SessionAddress true]
    | none =>
      [.Log "Successfully created a session but could not find the Game Port.",
       .CreateSessionBroadcast "" false]
  | _, _, _ =>
    [.Log "Failed to create a session.", .CreateSessionBroadcast "" false]

/-- The loop of `OnFindSessionsComplete`: a session is added while the list
built so far is shorter than `MaxSearchResults`. -/
def collectSearchResults (mkSession : τ → σ) (MaxSearchResults : Int)
    (Sessions : List τ) : List σ :=
  Sessions.foldl
    (fun SearchResults SessionResult =>
      if (SearchResults.length : Int) < MaxSearchResults then
        SearchResults ++ [mkSession SessionResult]
      else SearchResults)
    []

/-- The callback `OnFindSessionsComplete`; `mkSession` is the constructor
`Session(SessionResult)`. -/
def OnFindSessionsComplete (mkSession : τ → σ) (Response : ListSessionsV0Response τ)
    (g : AShooterGameSession σ ρ) : AShooterGameSession σ ρ × List (Event ρ) :=
  if Response.Successful then
    let SearchResults :=
      collectSearchResults mkSession g.CurrentSessionSearch.MaxSearchResults Response.Sessions
    ({ g with CurrentSessionSearch :=
        { g.CurrentSessionSearch with
          SearchResults := SearchResults, SearchState := SearchState.Done } },
     [.Log "Successfully listed sessions.", .FindSessionsBroadcast true])
  else
    ({ g with CurrentSessionSearch :=
        { g.CurrentSessionSearch with SearchState := SearchState.Failed } },
     [.Log "Failed to list sessions.", .FindSessionsBroadcast false])

/-- The member `ResetBestSessionVars`. -/
def ResetBestSessionVars (g : AShooterGameSession σ ρ) : AShooterGameSession σ ρ :=
  { g with BestSessionIdx := -1 }

/-- The member `ChooseBestSession`. The loop body returns in its first
iteration, so the loop runs at most once. `none` stands for the dereference
of a null `SearchSettings`. -/
def ChooseBestSession (g : AShooterGameSession σ ρ) : Option (AShooterGameSession σ ρ) :=
  match g.SearchSettings with
  | none => none
  | some SearchResults =>
    let SessionIndex := g.BestSessionIdx + 1
    if SessionIndex < (SearchResults.length : Int) then
      some { g with BestSessionIdx := SessionIndex }
    else
      some { g with BestSessionIdx := -1 }

/-- The member `OnNoMatchesAvailable`. -/
def OnNoMatchesAvailable (g : AShooterGameSession σ ρ) :
    AShooterGameSession σ ρ × List (Event ρ) :=
  ({ g with SearchSettings := none }, [.Log "Matchmaking complete, no sessions available."])

/-- The member `ContinueMatchmaking`. `none` stands for undefined behaviour:
the dereference of a null `SearchSettings` or an array access out of range. -/
def ContinueMatchmaking (O : OnlineSubsystem) (g : AShooterGameSession σ ρ) :
    Option (AShooterGameSession σ ρ × List (Event ρ)) :=
  match ChooseBestSession g with
  | none => none
  | some g =>
    match g.SearchSettings with
    | none => none
    | some SearchResults =>
      if 0 ≤ g.BestSessionIdx ∧ g.BestSessionIdx < (SearchResults.length : Int) then
        if O.OnlineSub then
          if O.SessionsValid && g.UserIdValid then
            match SearchResults[g.BestSessionIdx.toNat]? with
            | some SearchResult =>
              some (g, [.AddOnJoinSessionCompleteDelegate, .JoinSession SearchResult])
            | none => none
          else some (g, [])
        else some (g, [])
      else
        some (OnNoMatchesAvailable g)

/-- The member `StartMatchmaking`. -/
def StartMatchmaking (O : OnlineSubsystem) (g : AShooterGameSession σ ρ) :
    Option (AShooterGameSession σ ρ × List (Event ρ)) :=
  ContinueMatchmaking O (ResetBestSessionVars g)

/-- The member `GetSearchSessionsStatus`. -/
def GetSearchSessionsStatus (g : AShooterGameSession σ ρ) : SearchState :=
  g.CurrentSessionSearch.SearchState

/-- The member `GetSearchResults`. -/
def GetSearchResults (g : AShooterGameSession σ ρ) : List σ :=
  g.CurrentSessionSearch.SearchResults

/-- The member `FindSessions`, as far as the object and the session manager
are concerned: the state is set, then the request is issued. The completion
callback that the request (or the final `Flush`) triggers is the separate
operation `OnFindSessionsComplete`. -/
def FindSessions (g : AShooterGameSession σ ρ) : AShooterGameSession σ ρ × List (Event ρ) :=
  ({ g with CurrentSessionSearch :=
      { g.CurrentSessionSearch with SearchState := SearchState.InProgress } },
   [.Log "Attempting to list sessions...", .ListSessionsV0])

/-- The cursor `ChooseBestSession` leaves, given the old cursor `c` and the
number `n` of search results: the next index when there is one, else `-1`. -/
def nextCursor (c : Int) (n : Nat) : Int :=
  if c + 1 < (n : Int) then c + 1 else -1

/-- The cursor after `k` successive calls of `ChooseBestSession`. -/
def chooseTimes : Nat → AShooterGameSession σ ρ → Option (AShooterGameSession σ ρ)
  | 0, g => some g
  | k + 1, g => (chooseTimes k g).bind ChooseBestSession

end AShooterGameSession

end ShooterGame

/-! ## `ParseDateTime` -/

namespace IMSZeuzAPI

/-- The index of the first occurrence of a character in a sequence. -/
def firstIndexOf (c : Char) : List Char → Option Nat
  | [] => none
  | x :: xs => if x = c then some 0 else (firstIndexOf c xs).map (fun i => i + 1)

/-- The call `FString::FindChar`: the index of the first occurrence of the
character, `none` when the call returns `false`. Indices count the characters
of the string; the strings of interest are ASCII, where characters and `TCHAR`
units coincide. -/
def FindChar (s : String) (c : Char) : Option Nat :=
  firstIndexOf c s.data

/-- The call `FString::Left`: the leftmost `Count` characters. -/
def Left (s : String) (Count : Nat) : String :=
  String.mk (s.data.take Count)

/-- The call `FString::RightChop`: the string without its first `Count`
characters. -/
def RightChop (s : String) (Count : Nat) : String :=
  String.mk (s.data.drop Count)

/-- The first block of `ParseDateTime`: the string handed to
`FDateTime::ParseIso8601`. The three `FindChar` calls joined by `||` are
tried in order, and the first that succeeds sets `TimeZoneIndex`. -/
def StringToParse (DateTimeString : String) : String :=
  match FindChar DateTimeString '.' with
  | none => DateTimeString
  | some DotIndex =>
    match (FindChar DateTimeString 'Z').orElse fun _ =>
          (FindChar DateTimeString '+').orElse fun _ => FindChar DateTimeString '-' with
    | some TimeZoneIndex =>
      -- The string contains a time zone designator starting at TimeZoneIndex
      if TimeZoneIndex > DotIndex + 4 then
        -- Trim to millisecond
        Left DateTimeString (DotIndex + 4) ++ RightChop DateTimeString TimeZoneIndex
      else DateTimeString
    | none =>
      -- the string does not contain a time zone designator, trim it to the millisecond
      Left DateTimeString (DotIndex + 4)

/-- The three parsers of `FDateTime` that `ParseDateTime` calls; `none` is the
result `false`. -/
structure DateTimeParsers (δ : Type) where
  ParseIso8601 : String → Option δ
  ParseHttpDate : String → Option δ
  Parse : String → Option δ

/-- The function `ParseDateTime`: `some d` when it returns `true` with
`OutDateTime = d`. -/
def ParseDateTime {δ : Type} (P : DateTimeParsers δ) (DateTimeString : String) : Option δ :=
  match P.ParseIso8601 (StringToParse DateTimeString) with
  | some d => some d
  | none =>
    match P.ParseHttpDate DateTimeString with
    | some d => some d
    | none => P.Parse DateTimeString

/-! ### ISO-8601 inputs, in the words of the specification -/

/-- The shape of a character: every decimal digit counts as `d`, every other
character as itself. -/
def shapeOf (c : Char) : Char :=
  if c.isDigit then 'd' else c

/-- A date-time text split as `Head`, a dot, `Fraction` and `Designator`. -/
structure IsoDateTime where
  /-- the part `YYYY-mm-ddTHH:MM:SS` -/
  Head : String
  /-- the digits of the fractional seconds -/
  Fraction : String
  /-- the time-zone designator, possibly empty -/
  Designator : String
deriving DecidableEq, Repr

namespace IsoDateTime

/-- The text of the date-time. -/
def text (p : IsoDateTime) : String :=
  p.Head ++ "." ++ p.Fraction ++ p.Designator

/-- The text with the fractional digits beyond the third removed and
everything else kept. -/
def truncated (p : IsoDateTime) : String :=
  p.Head ++ "." ++ String.mk (p.Fraction.data.take 3) ++ p.Designator

/-- The text has the shape `YYYY-mm-ddTHH:MM:SS.f...` followed by `Z`,
`+hh:mm`, `+hhmm`, `-hh:mm`, `-hhmm` or nothing, with at least one fractional
digit. -/
def wellFormed (p : IsoDateTime) : Bool :=
  p.Head.data.map shapeOf == "dddd-dd-ddTdd:dd:dd".data
    && p.Fraction.data.all Char.isDigit
    && !p.Fraction.data.isEmpty
    && (["Z", "+dd:dd", "+dddd", "-dd:dd", "-dddd", ""].map String.data).contains
        (p.Designator.data.map shapeOf)

end IsoDateTime

end IMSZeuzAPI

/-! ## Operations on the session object -/

namespace ShooterGame

/-- The list-sessions broadcasts among the emitted events, in order. -/
def findSessionsBroadcasts {ρ : Type} (es : List (Event ρ)) : List Bool :=
  es.filterMap fun e =>
    match e with
    | .FindSessionsBroadcast b => some b
    | _ => none

/-- One call of a modelled member of `AShooterGameSession`. These are all the
members of `ShooterGameSession.cpp` that write `CurrentSessionSearch`,
`SearchSettings` or `CurrentSessionParams.BestSessionIdx`, and
`OnCreateSessionComplete`. -/
inductive Operation (τ : Type) where
  | FindSessions
  | OnFindSessionsComplete (Response : ListSessionsV0Response τ)
  | OnCreateSessionComplete (Response : CreateSessionV0Response)
  | ResetBestSessionVars
  | ChooseBestSession
  | OnNoMatchesAvailable
  | ContinueMatchmaking (O : OnlineSubsystem)
  | StartMatchmaking (O : OnlineSubsystem)

/-- Performs one operation; `none` is undefined behaviour. -/
def Operation.perform {σ ρ τ : Type} (mkSession : τ → σ) (op : Operation τ)
    (g : AShooterGameSession σ ρ) : Option (AShooterGameSession σ ρ) :=
  match op with
  | .FindSessions => some g.FindSessions.1
  | .OnFindSessionsComplete Response => some (g.OnFindSessionsComplete mkSession Response).1
  | .OnCreateSessionComplete _ => some g
  | .ResetBestSessionVars => some g.ResetBestSessionVars
  | .ChooseBestSession => g.ChooseBestSession
  | .OnNoMatchesAvailable => some g.OnNoMatchesAvailable.1
  | .ContinueMatchmaking O => (g.ContinueMatchmaking O).map Prod.fst
  | .StartMatchmaking O => (g.StartMatchmaking O).map Prod.fst

/-- Performs the operations from left to right. -/
def performAll {σ ρ τ : Type} (mkSession : τ → σ) :
    List (Operation τ) → AShooterGameSession σ ρ → Option (AShooterGameSession σ ρ)
  | [], g => some g
  | op :: ops, g => (op.perform mkSession g).bind (performAll mkSession ops)

end ShooterGame

/-! ## Concrete inputs used in examples -/

namespace IMSZeuzAPI

/-- An engine for the examples: every GUID is the same 22-character token, the
only readable file is `Content/logo.png` (three bytes), the clean file name is
the text after the last slash, and every file is `image/png`. -/
def sampleEngine : Engine where
  NewGuid := fun _ => "AQsMCQ0PAAUKCgQEBAgADQ"
  LoadFileToArray := fun p => if p = "Content/logo.png" then some [137, 80, 78] else none
  GetCleanFilename := fun p => String.mk (p.data.reverse.takeWhile (fun c => c ≠ '/')).reverse
  GetMimeType := fun _ => "image/png"

/-- A file input whose file `sampleEngine` can read. -/
def sampleFile : HttpFileInput := { FilePath := "Content/logo.png", ContentType := "image/png" }

/-- A file input whose file `sampleEngine` cannot read. -/
def missingFile : HttpFileInput := { FilePath := "Content/none.png", ContentType := "image/png" }

end IMSZeuzAPI

namespace ShooterGame

/-- A game session object for the examples: sessions and search results are
numbers, the cursor is at an arbitrary position, and `SearchSettings` holds
the given results. -/
def sampleSession (SearchResults : List Nat) : AShooterGameSession Nat Nat where
  BestSessionIdx := 7
  UserIdValid := true
  SearchSettings := some SearchResults
  CurrentSessionSearch :=
    { SearchResults := [99], MaxSearchResults := 2, SearchState := SearchState.InProgress }

/-- An online subsystem whose session interface is valid. -/
def sampleOnline : OnlineSubsystem := { OnlineSub := true, SessionsValid := true }

end ShooterGame

/-! ## Properties of the multipart form builder -/

theorem utf8_append (a b : String) : utf8 (a ++ b) = utf8 a ++ utf8 b := by
  simp [utf8]

namespace IMSZeuzAPI

open HttpMultipartFormData

theorem GetBoundary_of_ne (E : Engine) (s : HttpMultipartFormData) (h : s.Boundary ≠ "") :
    GetBoundary E s = (s.Boundary, s) := by
  simp [GetBoundary, h]

theorem GetBoundary_snd_Boundary (E : Engine) (s : HttpMultipartFormData) :
    (GetBoundary E s).2.Boundary = (GetBoundary E s).1 := by
  unfold GetBoundary
  split <;> rfl

theorem GetBoundary_snd_FormData (E : Engine) (s : HttpMultipartFormData) :
    (GetBoundary E s).2.FormData = s.FormData := by
  unfold GetBoundary
  split <;> rfl

/-- Once `GetBoundary` has produced a non-empty token, asking again changes
nothing. -/
theorem GetBoundary_idem (E : Engine) (s : HttpMultipartFormData)
    (h : (GetBoundary E s).1 ≠ "") :
    GetBoundary E (GetBoundary E s).2 = GetBoundary E s := by
  have h2 : (GetBoundary E s).2.Boundary ≠ "" := by
    rw [GetBoundary_snd_Boundary]; exact h
  rw [GetBoundary_of_ne E _ h2, GetBoundary_snd_Boundary]

theorem AddStringPart_eq (E : Engine) (Name Data : String) (s : HttpMultipartFormData) :
    s.AddStringPart E Name Data
      = { (GetBoundary E s).2 with
          FormData := s.FormData ++ mimePart (GetBoundary E s).1
            ("Content-Disposition: form-data; name = \"" ++ Name ++ "\"")
            "Content-Type: text/plain; charset=utf-8" (utf8 Data) } := by
  unfold AddStringPart AppendBoundary AppendString GetBoundary mimePart
  by_cases h : s.Boundary = "" <;> simp [h, utf8_append, Delimiter, Newline]

theorem AddJsonPart_eq (E : Engine) (Name JsonString : String) (s : HttpMultipartFormData) :
    s.AddJsonPart E Name JsonString
      = { (GetBoundary E s).2 with
          FormData := s.FormData ++ mimePart (GetBoundary E s).1
            ("Content-Disposition: form-data; name=\"" ++ Name ++ "\"")
            "Content-Type: application/json; charset=utf-8"
            (utf8 (toTCHAR JsonString)) } := by
  unfold AddJsonPart AppendBoundary AppendString GetBoundary mimePart
  by_cases h : s.Boundary = "" <;> simp [h, utf8_append, Delimiter, Newline]

theorem AddBinaryPart_eq (E : Engine) (Name : String) (ByteArray : List UInt8)
    (s : HttpMultipartFormData) :
    s.AddBinaryPart E Name ByteArray
      = { (GetBoundary E s).2 with
          FormData := s.FormData ++ mimePart (GetBoundary E s).1
            ("Content-Disposition: form-data; name=\"" ++ Name ++ "\"")
            "Content-Type: application/octet-stream" ByteArray } := by
  unfold AddBinaryPart AppendBoundary AppendString GetBoundary mimePart
  by_cases h : s.Boundary = "" <;> simp [h, utf8_append, Delimiter, Newline]

theorem AddFilePart_eq_of_load (E : Engine) (Name : String) (File : HttpFileInput)
    (FileContents : List UInt8) (s : HttpMultipartFormData)
    (hload : E.LoadFileToArray File.FilePath = some FileContents) :
    s.AddFilePart E Name File
      = ({ (GetBoundary E s).2 with
            FormData := s.FormData ++ mimePart (GetBoundary E s).1
              ("Content-Disposition: form-data; name=\"" ++ Name ++ "\"; filename=\""
                ++ E.GetCleanFilename File.FilePath ++ "\"")
              ("Content-Type: " ++ File.ContentType) FileContents }, []) := by
  unfold AddFilePart AppendBoundary AppendString GetBoundary mimePart HttpFileInput.GetFilename
  by_cases h : s.Boundary = "" <;> simp [h, hload, utf8_append, Delimiter, Newline]

theorem AddFilePart_eq_of_fail (E : Engine) (Name : String) (File : HttpFileInput)
    (s : HttpMultipartFormData) (hload : E.LoadFileToArray File.FilePath = none) :
    s.AddFilePart E Name File = (s, ["Failed to load file (" ++ File.FilePath ++ ")"]) := by
  simp [AddFilePart, hload]

theorem SetupHttpRequest_eq (E : Engine) (Request : HttpRequest) (s : HttpMultipartFormData)
    (h : (GetBoundary E s).1 ≠ "") :
    s.SetupHttpRequest E Request
      = ({ (GetBoundary E s).2 with
            FormData := s.FormData ++ closingBoundary (GetBoundary E s).1 },
         (Request.SetHeader "Content-Type"
            ("multipart/form-data; boundary=" ++ (GetBoundary E s).1)).SetContent
            (s.FormData ++ closingBoundary (GetBoundary E s).1),
         if FStringEq Request.Verb "POST" then []
         else ["Expected POST verb when using multipart form data"]) := by
  unfold SetupHttpRequest AppendBoundary AppendString closingBoundary
  by_cases hb : s.Boundary = ""
  · have hg : E.NewGuid s.GuidCalls ≠ "" := by simpa [GetBoundary, hb] using h
    by_cases hv : FStringEq Request.Verb "POST" <;>
      simp [GetBoundary, hb, hg, hv, Delimiter]
  · by_cases hv : FStringEq Request.Verb "POST" <;>
      simp [GetBoundary, hb, hv, Delimiter]

theorem GetHeader_SetContent_SetHeader (Request : HttpRequest) (k v : String)
    (c : List UInt8) :
    ((Request.SetHeader k v).SetContent c).GetHeader k = some v := by
  simp [HttpRequest.GetHeader, HttpRequest.SetHeader, HttpRequest.SetContent]

/-- A part-adding call appends its section under the token `GetBoundary`
yields at the time of the call. -/
theorem partCall_apply_FormData (E : Engine) (c : PartCall) (s : HttpMultipartFormData) :
    (c.apply E s).FormData = s.FormData ++ c.mimeSection E (GetBoundary E s).1 := by
  cases c with
  | string Name Data => simp [PartCall.apply, PartCall.mimeSection, AddStringPart_eq]
  | json Name JsonString => simp [PartCall.apply, PartCall.mimeSection, AddJsonPart_eq]
  | binary Name ByteArray => simp [PartCall.apply, PartCall.mimeSection, AddBinaryPart_eq]
  | file Name File =>
    cases hload : E.LoadFileToArray File.FilePath with
    | none => simp [PartCall.apply, PartCall.mimeSection, AddFilePart_eq_of_fail, hload]
    | some FileContents =>
      simp [PartCall.apply, PartCall.mimeSection, AddFilePart_eq_of_load E Name File _ s hload,
        hload]

/-- A part-adding call does not change a non-empty token. -/
theorem partCall_apply_GetBoundary (E : Engine) (c : PartCall) (s : HttpMultipartFormData)
    (h : (GetBoundary E s).1 ≠ "") :
    (GetBoundary E (c.apply E s)).1 = (GetBoundary E s).1 := by
  have key : ∀ d : List UInt8,
      (GetBoundary E { (GetBoundary E s).2 with FormData := d }).1 = (GetBoundary E s).1 := by
    intro d
    have h2 : ({ (GetBoundary E s).2 with FormData := d } : HttpMultipartFormData).Boundary
        ≠ "" := by
      show (GetBoundary E s).2.Boundary ≠ ""
      rw [GetBoundary_snd_Boundary]; exact h
    rw [GetBoundary_of_ne E _ h2]
    exact GetBoundary_snd_Boundary E s
  cases c with
  | string Name Data => simp only [PartCall.apply, AddStringPart_eq]; exact key _
  | json Name JsonString => simp only [PartCall.apply, AddJsonPart_eq]; exact key _
  | binary Name ByteArray => simp only [PartCall.apply, AddBinaryPart_eq]; exact key _
  | file Name File =>
    cases hload : E.LoadFileToArray File.FilePath with
    | none => simp [PartCall.apply, AddFilePart_eq_of_fail, hload]
    | some FileContents =>
      simp only [PartCall.apply, AddFilePart_eq_of_load E Name File _ s hload]; exact key _

/-- No call on the form changes a non-empty token. -/
theorem formCall_apply_GetBoundary (E : Engine) (c : FormCall) (s : HttpMultipartFormData)
    (h : (GetBoundary E s).1 ≠ "") :
    (GetBoundary E (c.apply E s)).1 = (GetBoundary E s).1 := by
  cases c with
  | part p => exact partCall_apply_GetBoundary E p s h
  | setup Request =>
    simp only [FormCall.apply, SetupHttpRequest_eq E Request s h]
    have h2 : ({ (GetBoundary E s).2 with
        FormData := s.FormData ++ closingBoundary (GetBoundary E s).1 }
          : HttpMultipartFormData).Boundary ≠ "" := by
      show (GetBoundary E s).2.Boundary ≠ ""
      rw [GetBoundary_snd_Boundary]; exact h
    rw [GetBoundary_of_ne E _ h2]
    exact GetBoundary_snd_Boundary E s
  | boundary =>
    simp only [FormCall.apply]
    rw [GetBoundary_idem E s h]

theorem runCalls_GetBoundary (E : Engine) (cs : List FormCall) (s : HttpMultipartFormData)
    (h : (GetBoundary E s).1 ≠ "") :
    (GetBoundary E (runCalls E cs s)).1 = (GetBoundary E s).1 := by
  induction cs generalizing s with
  | nil => rfl
  | cons c cs ih =>
    have hc := formCall_apply_GetBoundary E c s h
    have := ih (c.apply E s) (by rw [hc]; exact h)
    simpa [runCalls, hc] using this

/-- The bytes after a sequence of part-adding calls, when the token is `b`. -/
theorem addParts_spec (E : Engine) (b : String) (hb : b ≠ "") (cs : List PartCall)
    (s : HttpMultipartFormData) (hs : (GetBoundary E s).1 = b) :
    (GetBoundary E (addParts E cs s)).1 = b
    ∧ (addParts E cs s).FormData
        = s.FormData
          ++ ((cs.filter (PartCall.writesPart E)).map (PartCall.mimeSection E b)).flatten := by
  induction cs generalizing s with
  | nil => simp [addParts, hs]
  | cons c cs ih =>
    have hne : (GetBoundary E s).1 ≠ "" := by rw [hs]; exact hb
    have hc : (GetBoundary E (c.apply E s)).1 = b := by
      rw [partCall_apply_GetBoundary E c s hne, hs]
    obtain ⟨ih1, ih2⟩ := ih (c.apply E s) hc
    have hstep : addParts E (c :: cs) s = addParts E cs (c.apply E s) := rfl
    refine ⟨by rw [hstep]; exact ih1, ?_⟩
    rw [hstep, ih2, partCall_apply_FormData, hs]
    by_cases hw : PartCall.writesPart E c = true
    · simp [List.filter_cons, hw]
    · have hnil : PartCall.mimeSection E b c = [] := by
        cases c with
        | string Name Data => simp [PartCall.writesPart] at hw
        | json Name JsonString => simp [PartCall.writesPart] at hw
        | binary Name ByteArray => simp [PartCall.writesPart] at hw
        | file Name File =>
          cases hload : E.LoadFileToArray File.FilePath with
          | none => simp [PartCall.mimeSection, hload]
          | some FileContents => simp [PartCall.writesPart, hload] at hw
      simp [List.filter_cons, hw, hnil]

theorem mimePart_starts_with_boundary (b d ct : String) (payload : List UInt8) :
    utf8 "--" ++ utf8 b ++ utf8 "\r\n" <+: mimePart b d ct payload :=
  ⟨utf8 d ++ utf8 "\r\n" ++ utf8 ct ++ utf8 "\r\n" ++ utf8 "\r\n" ++ payload ++ utf8 "\r\n",
    by simp [mimePart]⟩

/-- The section of a call that writes a part starts with the boundary line. -/
theorem mimeSection_starts_with_boundary (E : Engine) (b : String) (c : PartCall)
    (hw : c.writesPart E = true) :
    utf8 "--" ++ utf8 b ++ utf8 "\r\n" <+: c.mimeSection E b := by
  cases c with
  | string Name Data => exact mimePart_starts_with_boundary _ _ _ _
  | json Name JsonString => exact mimePart_starts_with_boundary _ _ _ _
  | binary Name ByteArray => exact mimePart_starts_with_boundary _ _ _ _
  | file Name File =>
    cases hload : E.LoadFileToArray File.FilePath with
    | none => simp [PartCall.writesPart, hload] at hw
    | some FileContents =>
      simp only [PartCall.mimeSection, hload]
      exact mimePart_starts_with_boundary _ _ _ _

/-- A text without U+0000 is handed over whole. -/
theorem toTCHAR_of_no_nul (S : String) (h : Char.ofNat 0 ∉ S.data) : toTCHAR S = S := by
  apply String.ext
  show S.data.takeWhile (fun c => c ≠ Char.ofNat 0) = S.data
  rw [List.takeWhile_eq_self_iff]
  intro c hc
  have hne : c ≠ Char.ofNat 0 := fun e => h (e ▸ hc)
  simpa using hne

/-! ### The claims about the form builder -/

/-- C1, as stated, fails for a JSON part: the JSON text `a`, U+0000, `b` has
the UTF-8 bytes 97, 0, 98, but `AddJsonPart` hands the text over as a
zero-terminated `const TCHAR*`, so the payload written is the single byte
97. -/
theorem json_part_payload_stops_at_first_nul :
    utf8 (String.mk ['a', Char.ofNat 0, 'b']) = [97, 0, 98]
    ∧ ((fresh 0).AddJsonPart sampleEngine "a" (String.mk ['a', Char.ofNat 0, 'b'])).FormData
        = (fresh 0).FormData ++ mimePart ((fresh 0).GetBoundary sampleEngine).1
            ("Content-Disposition: form-data; name=\"" ++ "a" ++ "\"")
            "Content-Type: application/json; charset=utf-8" [97]
    ∧ ((fresh 0).AddJsonPart sampleEngine "a" (String.mk ['a', Char.ofNat 0, 'b'])).FormData
        ≠ (fresh 0).FormData ++ mimePart ((fresh 0).GetBoundary sampleEngine).1
            ("Content-Disposition: form-data; name=\"" ++ "a" ++ "\"")
            "Content-Type: application/json; charset=utf-8"
            (utf8 (String.mk ['a', Char.ofNat 0, 'b'])) := by
  decide

/-- C1, amended. Each part-adding member keeps the bytes already in the buffer
as a prefix and appends exactly one MIME part: the line `--` boundary CRLF,
the `Content-Disposition` line with the field name (and the clean file name
for a file part), the `Content-Type` line of the kind, an empty line, the
payload and a final CRLF. The payload is the UTF-8 encoding of the text for a
string part; for a JSON part the UTF-8 encoding of the JSON text before its
first U+0000, which is the whole text when it holds none; the bytes unchanged
for a binary part and a file part. For a file part this holds when the file
loads. -/
theorem add_part_appends_one_mime_part (E : Engine) (s : HttpMultipartFormData)
    (Name : String) :
    (∀ Data : String,
      (s.AddStringPart E Name Data).FormData
        = s.FormData ++ mimePart (s.GetBoundary E).1
            ("Content-Disposition: form-data; name = \"" ++ Name ++ "\"")
            "Content-Type: text/plain; charset=utf-8" (utf8 Data))
    ∧ (∀ JsonString : String,
      (s.AddJsonPart E Name JsonString).FormData
          = s.FormData ++ mimePart (s.GetBoundary E).1
              ("Content-Disposition: form-data; name=\"" ++ Name ++ "\"")
              "Content-Type: application/json; charset=utf-8" (utf8 (toTCHAR JsonString))
      ∧ (Char.ofNat 0 ∉ JsonString.data →
          (s.AddJsonPart E Name JsonString).FormData
            = s.FormData ++ mimePart (s.GetBoundary E).1
                ("Content-Disposition: form-data; name=\"" ++ Name ++ "\"")
                "Content-Type: application/json; charset=utf-8" (utf8 JsonString)))
    ∧ (∀ ByteArray : List UInt8,
      (s.AddBinaryPart E Name ByteArray).FormData
        = s.FormData ++ mimePart (s.GetBoundary E).1
            ("Content-Disposition: form-data; name=\"" ++ Name ++ "\"")
            "Content-Type: application/octet-stream" ByteArray)
    ∧ (∀ (File : HttpFileInput) (FileContents : List UInt8),
      E.LoadFileToArray File.FilePath = some FileContents →
      (s.AddFilePart E Name File).1.FormData
        = s.FormData ++ mimePart (s.GetBoundary E).1
            ("Content-Disposition: form-data; name=\"" ++ Name ++ "\"; filename=\""
              ++ E.GetCleanFilename File.FilePath ++ "\"")
            ("Content-Type: " ++ File.ContentType) FileContents) := by
  refine ⟨?_, ?_, ?_, ?_⟩
  · intro Data
    rw [AddStringPart_eq]
  · intro JsonString
    refine ⟨by rw [AddJsonPart_eq], fun hnul => ?_⟩
    rw [AddJsonPart_eq, toTCHAR_of_no_nul JsonString hnul]
  · intro ByteArray
    rw [AddBinaryPart_eq]
  · intro File FileContents hload
    rw [AddFilePart_eq_of_load E Name File FileContents s hload]

/-- C1 amended, at a concrete input: a file part for a readable file appended to a
form that already holds a string part. -/
theorem add_part_appends_one_mime_part_witness :
    sampleEngine.LoadFileToArray sampleFile.FilePath = some [137, 80, 78]
    ∧ (((fresh 0).AddStringPart sampleEngine "a" "b").AddFilePart sampleEngine "logo"
          sampleFile).1.FormData
        = ((fresh 0).AddStringPart sampleEngine "a" "b").FormData
            ++ mimePart (((fresh 0).AddStringPart sampleEngine "a" "b").GetBoundary sampleEngine).1
              ("Content-Disposition: form-data; name=\"" ++ "logo" ++ "\"; filename=\""
                ++ sampleEngine.GetCleanFilename sampleFile.FilePath ++ "\"")
              ("Content-Type: " ++ sampleFile.ContentType) [137, 80, 78] :=
  ⟨by decide,
   (add_part_appends_one_mime_part sampleEngine ((fresh 0).AddStringPart sampleEngine "a" "b")
      "logo").2.2.2 sampleFile [137, 80, 78] (by decide)⟩

/-- C2, as stated, fails: after one `AddFilePart` call on a file that cannot
be read and `SetupHttpRequest`, the buffer is the closing boundary alone, so
it does not hold one section for the one call. -/
theorem unreadable_file_part_leaves_no_section :
    (((addParts sampleEngine [PartCall.file "logo" missingFile] (fresh 0)).SetupHttpRequest
        sampleEngine { Verb := "POST", Headers := [], Content := [] }).1.FormData
      = closingBoundary "AQsMCQ0PAAUKCgQEBAgADQ")
    ∧ ¬ OneSectionPerCall "AQsMCQ0PAAUKCgQEBAgADQ" 1
        ((addParts sampleEngine [PartCall.file "logo" missingFile] (fresh 0)).SetupHttpRequest
          sampleEngine { Verb := "POST", Headers := [], Content := [] }).1.FormData := by
  have hbuf : ((addParts sampleEngine [PartCall.file "logo" missingFile]
      (fresh 0)).SetupHttpRequest sampleEngine
        { Verb := "POST", Headers := [], Content := [] }).1.FormData
      = closingBoundary "AQsMCQ0PAAUKCgQEBAgADQ" := by decide
  refine ⟨hbuf, ?_⟩
  rw [hbuf]
  rintro ⟨Sections, hlen, hstart, hsplit⟩
  match Sections, hlen with
  | [Section], _ =>
    have hnil : Section = [] := by
      have h1 : [Section].flatten = [] := by
        have := congrArg List.length hsplit
        simp only [List.length_append] at this
        exact List.length_eq_zero.mp (by omega)
      simpa using h1
    obtain ⟨t, ht⟩ := hstart Section (by simp)
    rw [hnil] at ht
    have h2 : (utf8 "--").length = 2 := by decide
    have := congrArg List.length ht
    simp only [List.length_append, List.length_nil] at this
    omega

/-- C2, amended. On a fresh form, after any sequence of part-adding calls and
one `SetupHttpRequest`, the buffer holds one section for every call that
writes a part (every call except `AddFilePart` on a file that cannot be
read), in call order, each starting with the boundary line, followed by the
closing boundary; the request carries the same bytes. The generated token is
assumed non-empty, as every GUID string is. -/
theorem body_is_written_sections_then_closing (E : Engine) (n : Nat) (cs : List PartCall)
    (Request : HttpRequest) (hg : E.NewGuid n ≠ "") :
    ((addParts E cs (fresh n)).SetupHttpRequest E Request).1.FormData
        = ((cs.filter (PartCall.writesPart E)).map
              (PartCall.mimeSection E (E.NewGuid n))).flatten
            ++ closingBoundary (E.NewGuid n)
    ∧ ((addParts E cs (fresh n)).SetupHttpRequest E Request).2.1.Content
        = ((addParts E cs (fresh n)).SetupHttpRequest E Request).1.FormData
    ∧ OneSectionPerCall (E.NewGuid n) (cs.filter (PartCall.writesPart E)).length
        ((addParts E cs (fresh n)).SetupHttpRequest E Request).1.FormData := by
  have h0 : (GetBoundary E (fresh n)).1 = E.NewGuid n := by simp [GetBoundary, fresh]
  obtain ⟨hb, hdata⟩ := addParts_spec E (E.NewGuid n) hg cs (fresh n) h0
  have hne : (GetBoundary E (addParts E cs (fresh n))).1 ≠ "" := by rw [hb]; exact hg
  have hform : ((addParts E cs (fresh n)).SetupHttpRequest E Request).1.FormData
      = ((cs.filter (PartCall.writesPart E)).map
            (PartCall.mimeSection E (E.NewGuid n))).flatten
          ++ closingBoundary (E.NewGuid n) := by
    rw [SetupHttpRequest_eq E Request _ hne, hb]
    show (addParts E cs (fresh n)).FormData ++ _ = _
    rw [hdata]
    simp [fresh]
  refine ⟨hform, ?_, ?_⟩
  · rw [SetupHttpRequest_eq E Request _ hne]
    rfl
  · refine ⟨(cs.filter (PartCall.writesPart E)).map (PartCall.mimeSection E (E.NewGuid n)),
      by simp, ?_, hform⟩
    intro Section hmem
    obtain ⟨c, hc, rfl⟩ := List.mem_map.mp hmem
    exact mimeSection_starts_with_boundary E _ c (List.mem_filter.mp hc).2

/-- C2 amended, at a concrete input: a string part, an unreadable file part
and a binary part give two sections. -/
theorem body_is_written_sections_then_closing_witness :
    sampleEngine.NewGuid 0 ≠ ""
    ∧ OneSectionPerCall (sampleEngine.NewGuid 0) 2
        ((addParts sampleEngine
            [PartCall.string "a" "b", PartCall.file "logo" missingFile,
              PartCall.binary "c" [0, 255]]
            (fresh 0)).SetupHttpRequest sampleEngine
              { Verb := "POST", Headers := [], Content := [] }).1.FormData :=
  ⟨by decide,
   (body_is_written_sections_then_closing sampleEngine 0
      [PartCall.string "a" "b", PartCall.file "logo" missingFile, PartCall.binary "c" [0, 255]]
      { Verb := "POST", Headers := [], Content := [] } (by decide)).2.2⟩

/-- C3. Whatever the request and its verb, `SetupHttpRequest` appends exactly
the closing boundary `--` token `--`, sets the header `Content-Type` to
`multipart/form-data; boundary=` followed by the same token, and sets the
request content to the whole buffer including the closing boundary. The verb
decides only whether an error line is logged: form, header and content are the
same for every verb. The token is assumed non-empty, as every GUID string
is. -/
theorem setup_http_request_finalizes_body (E : Engine) (Request : HttpRequest)
    (s : HttpMultipartFormData) (h : (s.GetBoundary E).1 ≠ "") :
    (s.SetupHttpRequest E Request).1.FormData
        = s.FormData ++ closingBoundary (s.GetBoundary E).1
    ∧ (s.SetupHttpRequest E Request).2.1.GetHeader "Content-Type"
        = some ("multipart/form-data; boundary=" ++ (s.GetBoundary E).1)
    ∧ (s.SetupHttpRequest E Request).2.1.Content
        = s.FormData ++ closingBoundary (s.GetBoundary E).1
    ∧ (s.SetupHttpRequest E Request).2.2
        = (if FStringEq Request.Verb "POST" then []
           else ["Expected POST verb when using multipart form data"])
    ∧ ∀ Verb : String,
        (s.SetupHttpRequest E { Request with Verb := Verb }).1
            = (s.SetupHttpRequest E Request).1
        ∧ (s.SetupHttpRequest E { Request with Verb := Verb }).2.1.Headers
            = (s.SetupHttpRequest E Request).2.1.Headers
        ∧ (s.SetupHttpRequest E { Request with Verb := Verb }).2.1.Content
            = (s.SetupHttpRequest E Request).2.1.Content := by
  refine ⟨?_, ?_, ?_, ?_, ?_⟩
  · rw [SetupHttpRequest_eq E Request s h]
  · rw [SetupHttpRequest_eq E Request s h]
    exact GetHeader_SetContent_SetHeader _ _ _ _
  · rw [SetupHttpRequest_eq E Request s h]
    rfl
  · rw [SetupHttpRequest_eq E Request s h]
  · intro Verb
    rw [SetupHttpRequest_eq E _ s h, SetupHttpRequest_eq E Request s h]
    exact ⟨rfl, rfl, rfl⟩

/-- C3, at a concrete input: a `GET` request on a form with one string part. -/
theorem setup_http_request_finalizes_body_witness :
    (((fresh 0).AddStringPart sampleEngine "a" "b").GetBoundary sampleEngine).1 ≠ ""
    ∧ (((fresh 0).AddStringPart sampleEngine "a" "b").SetupHttpRequest sampleEngine
          { Verb := "GET", Headers := [("Content-Type", "text/plain")],
            Content := [] }).2.1.GetHeader "Content-Type"
        = some ("multipart/form-data; boundary="
            ++ (((fresh 0).AddStringPart sampleEngine "a" "b").GetBoundary sampleEngine).1) :=
  ⟨by decide,
   (setup_http_request_finalizes_body sampleEngine
      { Verb := "GET", Headers := [("Content-Type", "text/plain")], Content := [] }
      ((fresh 0).AddStringPart sampleEngine "a" "b") (by decide)).2.1⟩

/-- C4. Once `GetBoundary` has returned a non-empty token `b`, it returns `b`
after any further sequence of part-adding calls, `SetupHttpRequest` calls and
`GetBoundary` calls (also the empty sequence); hence every part written later
carries `b` in its boundary line, and a later `SetupHttpRequest` writes `b`
in the closing boundary and in the `Content-Type` header. -/
theorem boundary_token_is_stable (E : Engine) (s : HttpMultipartFormData) (b : String)
    (hb : (s.GetBoundary E).1 = b) (hne : b ≠ "") (cs : List FormCall) :
    ((runCalls E cs (s.GetBoundary E).2).GetBoundary E).1 = b
    ∧ (∀ c : PartCall,
        (c.apply E (runCalls E cs (s.GetBoundary E).2)).FormData
          = (runCalls E cs (s.GetBoundary E).2).FormData ++ c.mimeSection E b)
    ∧ (∀ Request : HttpRequest,
        ((runCalls E cs (s.GetBoundary E).2).SetupHttpRequest E Request).1.FormData
            = (runCalls E cs (s.GetBoundary E).2).FormData ++ closingBoundary b
        ∧ ((runCalls E cs (s.GetBoundary E).2).SetupHttpRequest E Request).2.1.GetHeader
              "Content-Type"
            = some ("multipart/form-data; boundary=" ++ b)) := by
  have h1 : (GetBoundary E (GetBoundary E s).2).1 = b := by
    rw [GetBoundary_idem E s (by rw [hb]; exact hne), hb]
  have h2 : (GetBoundary E (runCalls E cs (GetBoundary E s).2)).1 = b := by
    rw [runCalls_GetBoundary E cs _ (by rw [h1]; exact hne), h1]
  refine ⟨h2, ?_, ?_⟩
  · intro c
    rw [partCall_apply_FormData, h2]
  · intro Request
    rw [SetupHttpRequest_eq E Request _ (by rw [h2]; exact hne), h2]
    exact ⟨rfl, GetHeader_SetContent_SetHeader _ _ _ _⟩

/-- C4, at a concrete input: the token of a fresh form survives a part, a
setup and another query. -/
theorem boundary_token_is_stable_witness :
    ((fresh 0).GetBoundary sampleEngine).1 = "AQsMCQ0PAAUKCgQEBAgADQ"
    ∧ "AQsMCQ0PAAUKCgQEBAgADQ" ≠ ""
    ∧ ((runCalls sampleEngine
          [FormCall.part (PartCall.json "a" "1"),
            FormCall.setup { Verb := "POST", Headers := [], Content := [] },
            FormCall.boundary]
          ((fresh 0).GetBoundary sampleEngine).2).GetBoundary sampleEngine).1
        = "AQsMCQ0PAAUKCgQEBAgADQ" :=
  ⟨by decide, by decide,
   (boundary_token_is_stable sampleEngine (fresh 0) "AQsMCQ0PAAUKCgQEBAgADQ" (by decide)
      (by decide)
      [FormCall.part (PartCall.json "a" "1"),
        FormCall.setup { Verb := "POST", Headers := [], Content := [] },
        FormCall.boundary]).1⟩

/-- C5. When the file cannot be read, `AddFilePart` returns the form
unchanged: the buffer is the same byte for byte, the boundary is not
generated, and the only trace is a log line (the member returns nothing to
its caller). -/
theorem add_file_part_unreadable_is_skipped (E : Engine) (Name : String)
    (File : HttpFileInput) (s : HttpMultipartFormData)
    (hload : E.LoadFileToArray File.FilePath = none) :
    (s.AddFilePart E Name File).1 = s
    ∧ (s.AddFilePart E Name File).1.FormData = s.FormData
    ∧ (s.AddFilePart E Name File).1.Boundary = s.Boundary
    ∧ (s.AddFilePart E Name File).1.GuidCalls = s.GuidCalls
    ∧ (s.AddFilePart E Name File).2 = ["Failed to load file (" ++ File.FilePath ++ ")"] := by
  rw [AddFilePart_eq_of_fail E Name File s hload]
  exact ⟨rfl, rfl, rfl, rfl, rfl⟩

/-- C5, at a concrete input: an unreadable file on a fresh form leaves the
boundary empty and the buffer empty. -/
theorem add_file_part_unreadable_is_skipped_witness :
    sampleEngine.LoadFileToArray missingFile.FilePath = none
    ∧ ((fresh 0).AddFilePart sampleEngine "logo" missingFile).1 = fresh 0 :=
  ⟨by decide,
   (add_file_part_unreadable_is_skipped sampleEngine "logo" missingFile (fresh 0)
      (by decide)).1⟩

end IMSZeuzAPI

/-! ## Properties of the session search tracker -/

namespace ShooterGame

open AShooterGameSession

variable {σ ρ τ : Type}

theorem collect_foldl (mkSession : τ → σ) (N : Int) (Sessions : List τ) (acc : List σ) :
    Sessions.foldl
        (fun SearchResults SessionResult =>
          if (SearchResults.length : Int) < N then SearchResults ++ [mkSession SessionResult]
          else SearchResults)
        acc
      = acc ++ (Sessions.take (N.toNat - acc.length)).map mkSession := by
  induction Sessions generalizing acc with
  | nil => simp
  | cons x rest ih =>
    rw [List.foldl_cons]
    by_cases h : (acc.length : Int) < N
    · rw [if_pos h, ih]
      obtain ⟨k, hk⟩ : ∃ k, N.toNat - acc.length = k + 1 := ⟨N.toNat - acc.length - 1, by omega⟩
      have hk2 : N.toNat - (acc ++ [mkSession x]).length = k := by
        simp only [List.length_append, List.length_singleton]; omega
      rw [hk, hk2]
      simp
    · rw [if_neg h, ih]
      have hk : N.toNat - acc.length = 0 := by omega
      rw [hk]
      simp

theorem collectSearchResults_eq (mkSession : τ → σ) (N : Int) (Sessions : List τ) :
    collectSearchResults mkSession N Sessions = (Sessions.take N.toNat).map mkSession := by
  unfold collectSearchResults
  rw [collect_foldl]
  simp

theorem ChooseBestSession_of_some (g : AShooterGameSession σ ρ) (rs : List ρ)
    (hs : g.SearchSettings = some rs) :
    ChooseBestSession g
      = some { g with BestSessionIdx := nextCursor g.BestSessionIdx rs.length } := by
  unfold ChooseBestSession nextCursor
  rw [hs]
  by_cases h : g.BestSessionIdx + 1 < (rs.length : Int) <;> simp [h]

/-- The cursor after `k` calls from the reset cursor, while candidates
remain. -/
theorem chooseTimes_reset (g : AShooterGameSession σ ρ) (rs : List ρ)
    (hs : g.SearchSettings = some rs) (k : Nat) (hk : k ≤ rs.length) :
    chooseTimes k (ResetBestSessionVars g) = some { g with BestSessionIdx := (k : Int) - 1 } := by
  induction k with
  | zero => simp [chooseTimes, ResetBestSessionVars]
  | succ k ih =>
    rw [chooseTimes, ih (by omega)]
    simp only [Option.some_bind]
    rw [ChooseBestSession_of_some { g with BestSessionIdx := (k : Int) - 1 } rs hs]
    have hlt : (k : Int) - 1 + 1 < (rs.length : Int) := by omega
    simp only [nextCursor, hlt, if_true]
    congr 2
    push_cast
    ring

/-- The cursor chosen by `ChooseBestSession` depends on the old cursor and on
the number of results only. -/
theorem chooseTimes_cursor_congr {ρ2 : Type} (g : AShooterGameSession σ ρ)
    (g2 : AShooterGameSession σ ρ2) (rs : List ρ) (rs2 : List ρ2)
    (hs : g.SearchSettings = some rs) (hs2 : g2.SearchSettings = some rs2)
    (hlen : rs2.length = rs.length) (hidx : g2.BestSessionIdx = g.BestSessionIdx) (k : Nat) :
    ∃ h h2, chooseTimes k g = some h ∧ chooseTimes k g2 = some h2
      ∧ h.SearchSettings = some rs ∧ h2.SearchSettings = some rs2
      ∧ h2.BestSessionIdx = h.BestSessionIdx := by
  induction k with
  | zero => exact ⟨g, g2, rfl, rfl, hs, hs2, hidx⟩
  | succ k ih =>
    obtain ⟨h, h2, e1, e2, s1, s2, hi⟩ := ih
    refine ⟨{ h with BestSessionIdx := nextCursor h.BestSessionIdx rs.length },
            { h2 with BestSessionIdx := nextCursor h2.BestSessionIdx rs2.length },
            ?_, ?_, s1, s2, ?_⟩
    · rw [chooseTimes, e1, Option.some_bind, ChooseBestSession_of_some _ rs s1]
    · rw [chooseTimes, e2, Option.some_bind, ChooseBestSession_of_some _ rs2 s2]
    · simp only [hi, hlen]

theorem chooseTimes_exhausted (g : AShooterGameSession σ ρ) (rs : List ρ)
    (hs : g.SearchSettings = some rs) :
    chooseTimes (rs.length + 1) (ResetBestSessionVars g)
      = some { g with BestSessionIdx := -1 } := by
  rw [chooseTimes, chooseTimes_reset g rs hs rs.length (le_refl _)]
  simp only [Option.some_bind]
  rw [ChooseBestSession_of_some { g with BestSessionIdx := (rs.length : Int) - 1 } rs hs]
  simp [nextCursor]

theorem ContinueMatchmaking_of_some (O : OnlineSubsystem) (g : AShooterGameSession σ ρ)
    (rs : List ρ) (hs : g.SearchSettings = some rs) :
    ContinueMatchmaking O g
      = if 0 ≤ nextCursor g.BestSessionIdx rs.length then
          match rs[(nextCursor g.BestSessionIdx rs.length).toNat]? with
          | some r =>
            some ({ g with BestSessionIdx := nextCursor g.BestSessionIdx rs.length },
              if O.OnlineSub && (O.SessionsValid && g.UserIdValid) then
                [Event.AddOnJoinSessionCompleteDelegate, Event.JoinSession r]
              else [])
          | none =>
            if O.OnlineSub && (O.SessionsValid && g.UserIdValid) then none
            else some ({ g with BestSessionIdx := nextCursor g.BestSessionIdx rs.length }, [])
        else
          some ({ g with BestSessionIdx := nextCursor g.BestSessionIdx rs.length,
                         SearchSettings := none },
            [Event.Log "Matchmaking complete, no sessions available."]) := by
  have hlt : 0 ≤ nextCursor g.BestSessionIdx rs.length →
      nextCursor g.BestSessionIdx rs.length < (rs.length : Int) := by
    unfold nextCursor; split <;> omega
  unfold ContinueMatchmaking
  rw [ChooseBestSession_of_some g rs hs]
  simp only [hs]
  by_cases h0 : 0 ≤ nextCursor g.BestSessionIdx rs.length
  · simp only [h0, hlt h0, and_self, if_true]
    cases hr : rs[(nextCursor g.BestSessionIdx rs.length).toNat]? <;>
      cases O.OnlineSub <;> cases O.SessionsValid <;> cases g.UserIdValid <;> simp
  · simp [h0, OnNoMatchesAvailable]

/-! ### The claims about the session search tracker -/

/-- C6. With search results `rs` of length `n` and the cursor reset to `-1`,
the `k`-th call of `ChooseBestSession` (`1 ≤ k ≤ n`) leaves the cursor at
`k - 1`, so the calls `1 .. n` visit the indices `0 .. n - 1` once each in
order; call `n + 1` leaves the cursor at `-1`. The cursors depend on the
number of results only, not on the results themselves. -/
theorem choose_best_session_visits_each_once (g : AShooterGameSession σ ρ) (rs : List ρ)
    (hs : g.SearchSettings = some rs) :
    (∀ k : Nat, 1 ≤ k → k ≤ rs.length →
        chooseTimes k (ResetBestSessionVars g) = some { g with BestSessionIdx := (k : Int) - 1 })
    ∧ (List.range rs.length).map
          (fun k : Nat =>
            (chooseTimes (k + 1) (ResetBestSessionVars g)).map (fun h => h.BestSessionIdx))
        = (List.range rs.length).map (fun k : Nat => some (k : Int))
    ∧ chooseTimes (rs.length + 1) (ResetBestSessionVars g) = some { g with BestSessionIdx := -1 }
    ∧ ∀ (ρ2 : Type) (g2 : AShooterGameSession σ ρ2) (rs2 : List ρ2),
        g2.SearchSettings = some rs2 → rs2.length = rs.length → ∀ k : Nat,
          (chooseTimes k (ResetBestSessionVars g2)).map (fun h => h.BestSessionIdx)
            = (chooseTimes k (ResetBestSessionVars g)).map (fun h => h.BestSessionIdx) := by
  refine ⟨fun k _ hk => chooseTimes_reset g rs hs k hk, ?_, chooseTimes_exhausted g rs hs, ?_⟩
  · apply List.map_congr_left
    intro k hk
    rw [chooseTimes_reset g rs hs (k + 1) (by have := List.mem_range.mp hk; omega)]
    simp
  · intro ρ2 g2 rs2 hs2 hlen k
    obtain ⟨h, h2, e1, e2, _, _, hi⟩ :=
      chooseTimes_cursor_congr (ResetBestSessionVars g) (ResetBestSessionVars g2) rs rs2 hs hs2
        hlen rfl k
    rw [e1, e2]
    simp [hi]

/-- C6, at a concrete input: three results, third call. -/
theorem choose_best_session_visits_each_once_witness :
    (sampleSession [10, 20, 30]).SearchSettings = some [10, 20, 30]
    ∧ chooseTimes 3 (ResetBestSessionVars (sampleSession [10, 20, 30]))
        = some { sampleSession [10, 20, 30] with BestSessionIdx := ((3 : Nat) : Int) - 1 } :=
  ⟨rfl,
   (choose_best_session_visits_each_once (sampleSession [10, 20, 30]) [10, 20, 30] rfl).1 3
      (by decide) (by decide)⟩

/-- C7. `ContinueMatchmaking` first moves the cursor as `ChooseBestSession`
does. If the new cursor is an index (a candidate remains), the search result
at that index exists, a join of exactly that result is requested when the
online subsystem, its session interface and the user id are valid (and
nothing is requested otherwise), and the search settings stay in place. If no
candidate remains, no join is requested, the no-matches line is logged and the
search settings are cleared. `StartMatchmaking` on an empty result list ends
in that way. For a cursor of at least `-1`, a candidate remains exactly when
the cursor is not at the last index. -/
theorem continue_matchmaking_joins_or_ends (O : OnlineSubsystem)
    (g : AShooterGameSession σ ρ) (rs : List ρ) (hs : g.SearchSettings = some rs) :
    ChooseBestSession g
        = some { g with BestSessionIdx := nextCursor g.BestSessionIdx rs.length }
    ∧ (0 ≤ nextCursor g.BestSessionIdx rs.length →
        ∃ r, rs[(nextCursor g.BestSessionIdx rs.length).toNat]? = some r
          ∧ ContinueMatchmaking O g
              = some ({ g with BestSessionIdx := nextCursor g.BestSessionIdx rs.length },
                  if O.OnlineSub && (O.SessionsValid && g.UserIdValid) then
                    [Event.AddOnJoinSessionCompleteDelegate, Event.JoinSession r]
                  else []))
    ∧ (nextCursor g.BestSessionIdx rs.length < 0 →
        ContinueMatchmaking O g
          = some ({ g with BestSessionIdx := nextCursor g.BestSessionIdx rs.length,
                           SearchSettings := none },
              [Event.Log "Matchmaking complete, no sessions available."]))
    ∧ (rs = [] →
        StartMatchmaking O g
          = some ({ g with BestSessionIdx := -1, SearchSettings := none },
              [Event.Log "Matchmaking complete, no sessions available."]))
    ∧ (-1 ≤ g.BestSessionIdx →
        (0 ≤ nextCursor g.BestSessionIdx rs.length ↔ g.BestSessionIdx + 1 < (rs.length : Int)))
      := by
  refine ⟨ChooseBestSession_of_some g rs hs, ?_, ?_, ?_, ?_⟩
  rotate_left 3
  · intro hc
    unfold nextCursor
    split <;> omega
  · intro h0
    have hlt : (nextCursor g.BestSessionIdx rs.length).toNat < rs.length := by
      have : nextCursor g.BestSessionIdx rs.length < (rs.length : Int) := by
        revert h0; unfold nextCursor; split <;> omega
      omega
    refine ⟨rs[(nextCursor g.BestSessionIdx rs.length).toNat], ?_, ?_⟩
    · exact List.getElem?_eq_getElem hlt
    · rw [ContinueMatchmaking_of_some O g rs hs, if_pos h0, List.getElem?_eq_getElem hlt]
  · intro hneg
    rw [ContinueMatchmaking_of_some O g rs hs, if_neg (by omega)]
  · intro hnil
    subst hnil
    unfold StartMatchmaking
    rw [ContinueMatchmaking_of_some O (ResetBestSessionVars g) [] hs]
    simp [nextCursor, ResetBestSessionVars]

/-- C7, at a concrete input: with results `[10, 20, 30]` and the cursor at
`0`, the join of the second result is requested. -/
theorem continue_matchmaking_joins_or_ends_witness :
    ({ sampleSession [10, 20, 30] with BestSessionIdx := 0 }
        : AShooterGameSession Nat Nat).SearchSettings = some [10, 20, 30]
    ∧ (0 : Int) ≤ nextCursor 0 3
    ∧ ∃ r, [10, 20, 30][(nextCursor 0 3).toNat]? = some r
        ∧ ContinueMatchmaking sampleOnline { sampleSession [10, 20, 30] with BestSessionIdx := 0 }
            = some ({ sampleSession [10, 20, 30] with BestSessionIdx := nextCursor 0 3 },
                if sampleOnline.OnlineSub && (sampleOnline.SessionsValid && true) then
                  [Event.AddOnJoinSessionCompleteDelegate, Event.JoinSession r]
                else []) :=
  ⟨rfl, by decide,
   (continue_matchmaking_joins_or_ends sampleOnline
      { sampleSession [10, 20, 30] with BestSessionIdx := 0 } [10, 20, 30] rfl).2.1
      (by decide)⟩

/-- C10. For a successful list-sessions response with sessions `S`, and with
`N = MaxSearchResults`, `OnFindSessionsComplete` replaces the stored search
results by the first `min N |S|` elements of `S` (converted by the `Session`
constructor) in arrival order: none when `N ≤ 0`, never more than `N`. -/
theorem find_sessions_keeps_first_max_results (mkSession : τ → σ)
    (Response : ListSessionsV0Response τ) (g : AShooterGameSession σ ρ)
    (hs : Response.Successful = true) :
    (OnFindSessionsComplete mkSession Response g).1.CurrentSessionSearch.SearchResults
        = (Response.Sessions.take
            (min g.CurrentSessionSearch.MaxSearchResults.toNat Response.Sessions.length)).map
            mkSession
    ∧ (OnFindSessionsComplete mkSession Response g).1.CurrentSessionSearch.SearchResults.length
        = min g.CurrentSessionSearch.MaxSearchResults.toNat Response.Sessions.length
    ∧ (g.CurrentSessionSearch.MaxSearchResults ≤ 0 →
        (OnFindSessionsComplete mkSession Response g).1.CurrentSessionSearch.SearchResults = [])
    ∧ (0 ≤ g.CurrentSessionSearch.MaxSearchResults →
        ((OnFindSessionsComplete mkSession Response g).1.CurrentSessionSearch.SearchResults.length
            : Int) ≤ g.CurrentSessionSearch.MaxSearchResults) := by
  have hres :
      (OnFindSessionsComplete mkSession Response g).1.CurrentSessionSearch.SearchResults
        = (Response.Sessions.take g.CurrentSessionSearch.MaxSearchResults.toNat).map
            mkSession := by
    simp [OnFindSessionsComplete, hs, collectSearchResults_eq]
  have htake : Response.Sessions.take
        (min g.CurrentSessionSearch.MaxSearchResults.toNat Response.Sessions.length)
      = Response.Sessions.take g.CurrentSessionSearch.MaxSearchResults.toNat := by
    rcases Nat.le_total g.CurrentSessionSearch.MaxSearchResults.toNat Response.Sessions.length
      with h | h
    · rw [Nat.min_eq_left h]
    · rw [Nat.min_eq_right h, List.take_length, List.take_of_length_le h]
  refine ⟨by rw [hres, htake], by rw [hres]; simp [List.length_take], ?_, ?_⟩
  · intro hN
    rw [hres]
    have : g.CurrentSessionSearch.MaxSearchResults.toNat = 0 := by omega
    simp [this]
  · intro hN
    rw [hres]
    simp only [List.length_map, List.length_take]
    omega

/-- C10, at a concrete input: a maximum of two and three sessions received. -/
theorem find_sessions_keeps_first_max_results_witness :
    (OnFindSessionsComplete (fun n : Nat => n)
        { Successful := true, Sessions := [5, 6, 7] }
        (sampleSession [])).1.CurrentSessionSearch.SearchResults
      = ([5, 6, 7].take (min (sampleSession []).CurrentSessionSearch.MaxSearchResults.toNat
          [5, 6, 7].length)).map (fun n : Nat => n) :=
  (find_sessions_keeps_first_max_results (fun n : Nat => n)
    { Successful := true, Sessions := [5, 6, 7] } (sampleSession []) rfl).1

end ShooterGame

/-! ## Properties of `ParseDateTime` -/

namespace IMSZeuzAPI

theorem firstIndexOf_append_of_mem (c : Char) (l r : List Char) (h : c ∈ l) :
    firstIndexOf c (l ++ r) = firstIndexOf c l := by
  induction l with
  | nil => simp at h
  | cons x xs ih =>
    by_cases hx : x = c
    · simp [firstIndexOf, hx]
    · have hmem : c ∈ xs := by
        rcases List.mem_cons.mp h with h1 | h1
        · exact absurd h1.symm hx
        · exact h1
      simp [firstIndexOf, hx, ih hmem]

theorem firstIndexOf_append_of_not_mem (c : Char) (l r : List Char) (h : c ∉ l) :
    firstIndexOf c (l ++ r) = (firstIndexOf c r).map (fun i => i + l.length) := by
  induction l with
  | nil => simp
  | cons x xs ih =>
    have hx : x ≠ c := fun e => h (by simp [e])
    have hxs : c ∉ xs := fun e => h (List.mem_cons_of_mem _ e)
    have hstep : firstIndexOf c (x :: (xs ++ r))
        = (firstIndexOf c (xs ++ r)).map (fun i => i + 1) := by
      simp [firstIndexOf, hx]
    rw [List.cons_append, hstep, ih hxs]
    cases firstIndexOf c r <;> simp [Nat.add_assoc]

theorem firstIndexOf_eq_none (c : Char) (l : List Char) (h : c ∉ l) :
    firstIndexOf c l = none := by
  have := firstIndexOf_append_of_not_mem c l [] h
  simpa [firstIndexOf] using this

theorem firstIndexOf_lt (c : Char) (l : List Char) (i : Nat)
    (h : firstIndexOf c l = some i) : i < l.length := by
  induction l generalizing i with
  | nil => simp [firstIndexOf] at h
  | cons x xs ih =>
    by_cases hx : x = c
    · simp [firstIndexOf, hx] at h
      subst h
      simp
    · simp only [firstIndexOf, hx, if_false, Option.map_eq_some'] at h
      obtain ⟨j, hj, rfl⟩ := h
      have := ih j hj
      simp only [List.length_cons]
      omega

theorem firstIndexOf_of_mem (c : Char) (l : List Char) (h : c ∈ l) :
    ∃ i, firstIndexOf c l = some i ∧ i < l.length := by
  induction l with
  | nil => simp at h
  | cons x xs ih =>
    by_cases hx : x = c
    · exact ⟨0, by simp [firstIndexOf, hx], by simp⟩
    · have hmem : c ∈ xs := by
        rcases List.mem_cons.mp h with h1 | h1
        · exact absurd h1.symm hx
        · exact h1
      obtain ⟨i, hi, hlt⟩ := ih hmem
      exact ⟨i + 1, by simp [firstIndexOf, hx, hi], by simp only [List.length_cons]; omega⟩

/-- The first occurrence of `c` in `H ++ '.' :: (F ++ c :: D)` when `c` is
neither in `H` nor in `F` and is not the dot. -/
theorem firstIndexOf_designator (c : Char) (H F D : List Char) (hH : c ∉ H) (hF : c ∉ F)
    (hc : c ≠ '.') :
    firstIndexOf c (H ++ '.' :: (F ++ c :: D)) = some (H.length + 1 + F.length) := by
  rw [firstIndexOf_append_of_not_mem c H _ hH]
  have hdot : ('.' : Char) ≠ c := fun e => hc e.symm
  simp only [firstIndexOf, hdot, if_false]
  rw [firstIndexOf_append_of_not_mem c F _ hF]
  simp only [firstIndexOf, if_true, Option.map_some']
  congr 1
  omega

theorem firstIndexOf_dot (H R : List Char) (hdot : '.' ∉ H) :
    firstIndexOf '.' (H ++ '.' :: R) = some H.length := by
  rw [firstIndexOf_append_of_not_mem '.' H _ hdot]
  simp [firstIndexOf]

/-- When the time-zone search finds the designator right after the fraction,
the fraction is cut to three digits if it has more. -/
theorem StringToParse_designator_found (H F D : List Char) (hdot : '.' ∉ H)
    (htz : ((FindChar (String.mk (H ++ '.' :: (F ++ D))) 'Z').orElse fun _ =>
              (FindChar (String.mk (H ++ '.' :: (F ++ D))) '+').orElse fun _ =>
                FindChar (String.mk (H ++ '.' :: (F ++ D))) '-')
            = some (H.length + 1 + F.length)) :
    StringToParse (String.mk (H ++ '.' :: (F ++ D)))
      = if 3 < F.length then String.mk (H ++ '.' :: (F.take 3 ++ D))
        else String.mk (H ++ '.' :: (F ++ D)) := by
  unfold StringToParse
  rw [htz]
  simp only [FindChar, firstIndexOf_dot H (F ++ D) hdot]
  by_cases h3 : 3 < F.length
  · have hgt : H.length + 1 + F.length > H.length + 4 := by omega
    simp only [hgt, h3, if_true]
    apply String.ext
    simp only [Left, RightChop, String.data_append]
    have htake : List.take (H.length + 4) (H ++ '.' :: (F ++ D)) = H ++ '.' :: F.take 3 := by
      rw [List.take_append]
      simp only [List.take_succ_cons]
      rw [List.take_append_of_le_length (by omega)]
    have hdrop : List.drop (H.length + 1 + F.length) (H ++ '.' :: (F ++ D)) = D := by
      rw [Nat.add_assoc, List.drop_append]
      have : 1 + F.length = F.length + 1 := by omega
      rw [this, List.drop_succ_cons, List.drop_left]
    rw [htake, hdrop]
    simp
  · have hgt : ¬ (H.length + 1 + F.length > H.length + 4) := by omega
    simp only [hgt, h3, if_false]

/-- When the time-zone search stops inside the head, nothing is cut. -/
theorem StringToParse_found_in_head (H R : List Char) (i : Nat) (hdot : '.' ∉ H)
    (htz : ((FindChar (String.mk (H ++ '.' :: R)) 'Z').orElse fun _ =>
              (FindChar (String.mk (H ++ '.' :: R)) '+').orElse fun _ =>
                FindChar (String.mk (H ++ '.' :: R)) '-')
            = some i)
    (hi : i < H.length) :
    StringToParse (String.mk (H ++ '.' :: R)) = String.mk (H ++ '.' :: R) := by
  unfold StringToParse
  rw [htz]
  simp only [FindChar, firstIndexOf_dot H R hdot]
  have hgt : ¬ (i > H.length + 4) := by omega
  simp only [hgt, if_false]

theorem shapeOf_eq (c x : Char) (h : shapeOf c = x) (hx : x ≠ 'd') : c = x := by
  unfold shapeOf at h
  split at h
  · exact absurd h.symm hx
  · exact h

theorem not_mem_of_shape (c : Char) (l pat : List Char) (h : l.map shapeOf = pat)
    (hd : c.isDigit = false) (hp : c ∉ pat) : c ∉ l := by
  intro hc
  apply hp
  rw [← h]
  have : shapeOf c = c := by simp [shapeOf, hd]
  rw [← this]
  exact List.mem_map_of_mem _ hc

theorem not_mem_of_digits (c : Char) (l : List Char) (h : ∀ x ∈ l, x.isDigit = true)
    (hd : c.isDigit = false) : c ∉ l := by
  intro hc
  rw [h c hc] at hd
  exact absurd hd (by decide)

theorem mem_of_shape (x : Char) (l pat : List Char) (h : l.map shapeOf = pat)
    (hx : x ∈ pat) (hd : x ≠ 'd') : x ∈ l := by
  rw [← h] at hx
  obtain ⟨c, hc, hcx⟩ := List.mem_map.mp hx
  rw [← shapeOf_eq c x hcx hd]
  exact hc

theorem head_of_shape (x : Char) (l rest : List Char) (h : l.map shapeOf = x :: rest)
    (hx : x ≠ 'd') : ∃ t, l = x :: t ∧ t.map shapeOf = rest := by
  cases l with
  | nil => simp at h
  | cons c t =>
    simp only [List.map_cons, List.cons.injEq] at h
    exact ⟨t, by rw [shapeOf_eq c x h.1 hx], h.2⟩

theorem IsoDateTime.text_eq (p : IsoDateTime) :
    p.text = String.mk (p.Head.data ++ '.' :: (p.Fraction.data ++ p.Designator.data)) := by
  apply String.ext
  simp [IsoDateTime.text, String.data_append]

theorem IsoDateTime.truncated_eq (p : IsoDateTime) :
    p.truncated
      = String.mk (p.Head.data ++ '.' :: (p.Fraction.data.take 3 ++ p.Designator.data)) := by
  apply String.ext
  simp [IsoDateTime.truncated, String.data_append]

/-- A well-formed text with more than three fractional digits is longer than
its truncation. -/
theorem IsoDateTime.text_ne_truncated (p : IsoDateTime) (h3 : 3 < p.Fraction.length) :
    p.text ≠ p.truncated := by
  intro h
  rw [p.text_eq, p.truncated_eq] at h
  have hlen := congrArg (fun t : String => t.data.length) h
  have h3b : 3 < p.Fraction.data.length := h3
  simp only [List.length_append, List.length_cons, List.length_take] at hlen
  omega

/-- With a designator that starts with `c` (one of `Z`, `+`), found by the
search as the first time-zone character, the fraction is cut as the claim
says. -/
theorem StringToParse_zulu_or_plus (p : IsoDateTime) (c : Char) (t : List Char)
    (hc : c = 'Z' ∨ c = '+') (hD : p.Designator.data = c :: t)
    (hdotH : '.' ∉ p.Head.data) (hZH : 'Z' ∉ p.Head.data) (hPH : '+' ∉ p.Head.data)
    (hZF : 'Z' ∉ p.Fraction.data) (hPF : '+' ∉ p.Fraction.data)
    (hZt : c = '+' → 'Z' ∉ t) :
    StringToParse p.text = if 3 < p.Fraction.length then p.truncated else p.text := by
  rw [p.text_eq, p.truncated_eq]
  apply StringToParse_designator_found _ _ _ hdotH
  simp only [FindChar, hD]
  rcases hc with rfl | rfl
  · rw [firstIndexOf_designator 'Z' _ _ _ hZH hZF (by decide)]
    rfl
  · have hnoZ : 'Z' ∉ p.Head.data ++ '.' :: (p.Fraction.data ++ '+' :: t) := by
      have hZt2 := hZt rfl
      simp only [List.mem_append, List.mem_cons, not_or]
      exact ⟨hZH, by decide, hZF, by decide, hZt2⟩
    rw [firstIndexOf_eq_none 'Z' _ hnoZ, firstIndexOf_designator '+' _ _ _ hPH hPF (by decide)]
    rfl

/-- With a designator that is empty or starts with `-`, the search stops at
the first `-` of the date and nothing is cut. -/
theorem StringToParse_minus_or_none (p : IsoDateTime)
    (hdotH : '.' ∉ p.Head.data) (hmH : '-' ∈ p.Head.data)
    (hZ : 'Z' ∉ p.Head.data ++ '.' :: (p.Fraction.data ++ p.Designator.data))
    (hP : '+' ∉ p.Head.data ++ '.' :: (p.Fraction.data ++ p.Designator.data)) :
    StringToParse p.text = p.text := by
  rw [p.text_eq]
  obtain ⟨i, hi, hlt⟩ := firstIndexOf_of_mem '-' p.Head.data hmH
  apply StringToParse_found_in_head _ _ i hdotH _ hlt
  simp only [FindChar]
  rw [firstIndexOf_eq_none 'Z' _ hZ, firstIndexOf_eq_none '+' _ hP,
    firstIndexOf_append_of_mem '-' _ _ hmH, hi]
  rfl

/-! ### The claim about `ParseDateTime` -/

/-- C12. For a text of the shape `YYYY-mm-ddTHH:MM:SS.f...` with a designator:
when the designator is `Z` or starts with `+`, the string handed to the
ISO-8601 parser is the text with the fractional digits beyond the third
removed (and the text itself when there are at most three); when the
designator is missing or starts with `-`, the search for the time zone finds
the first `-` of the date, so the text is handed over unchanged, which for
more than three fractional digits is not the truncated text the claim
requires. -/
theorem parse_date_time_truncates_only_zulu_and_plus (p : IsoDateTime)
    (hwf : p.wellFormed = true) :
    ((p.Designator.data.head? = some 'Z' ∨ p.Designator.data.head? = some '+') →
        StringToParse p.text = if 3 < p.Fraction.length then p.truncated else p.text)
    ∧ ((p.Designator.data = [] ∨ p.Designator.data.head? = some '-') →
        StringToParse p.text = p.text
        ∧ (3 < p.Fraction.length → StringToParse p.text ≠ p.truncated)) := by
  simp only [IsoDateTime.wellFormed, Bool.and_eq_true, beq_iff_eq, List.all_eq_true,
    Bool.not_eq_true', List.isEmpty_eq_false] at hwf
  obtain ⟨⟨⟨hH, hF⟩, _⟩, hDc⟩ := hwf
  have hH2 : p.Head.data.map shapeOf
      = ['d', 'd', 'd', 'd', '-', 'd', 'd', '-', 'd', 'd', 'T', 'd', 'd', ':', 'd', 'd', ':',
          'd', 'd'] := hH
  have hD : p.Designator.data.map shapeOf = ['Z']
      ∨ p.Designator.data.map shapeOf = ['+', 'd', 'd', ':', 'd', 'd']
      ∨ p.Designator.data.map shapeOf = ['+', 'd', 'd', 'd', 'd']
      ∨ p.Designator.data.map shapeOf = ['-', 'd', 'd', ':', 'd', 'd']
      ∨ p.Designator.data.map shapeOf = ['-', 'd', 'd', 'd', 'd']
      ∨ p.Designator.data = [] := by
    simpa using hDc
  have hdotH : '.' ∉ p.Head.data := not_mem_of_shape _ _ _ hH2 (by decide) (by decide)
  have hZH : 'Z' ∉ p.Head.data := not_mem_of_shape _ _ _ hH2 (by decide) (by decide)
  have hPH : '+' ∉ p.Head.data := not_mem_of_shape _ _ _ hH2 (by decide) (by decide)
  have hmH : '-' ∈ p.Head.data := mem_of_shape _ _ _ hH2 (by decide) (by decide)
  have hZF : 'Z' ∉ p.Fraction.data := not_mem_of_digits _ _ hF (by decide)
  have hPF : '+' ∉ p.Fraction.data := not_mem_of_digits _ _ hF (by decide)
  constructor
  · intro hhead
    rcases hD with h | h | h | h | h | h
    · obtain ⟨t, ht, _⟩ := head_of_shape 'Z' _ _ h (by decide)
      exact StringToParse_zulu_or_plus p 'Z' t (Or.inl rfl) ht hdotH hZH hPH hZF hPF
        (fun e => absurd e (by decide))
    · obtain ⟨t, ht, hts⟩ := head_of_shape '+' _ _ h (by decide)
      exact StringToParse_zulu_or_plus p '+' t (Or.inr rfl) ht hdotH hZH hPH hZF hPF
        (fun _ => not_mem_of_shape _ _ _ hts (by decide) (by decide))
    · obtain ⟨t, ht, hts⟩ := head_of_shape '+' _ _ h (by decide)
      exact StringToParse_zulu_or_plus p '+' t (Or.inr rfl) ht hdotH hZH hPH hZF hPF
        (fun _ => not_mem_of_shape _ _ _ hts (by decide) (by decide))
    · obtain ⟨t, ht, _⟩ := head_of_shape '-' _ _ h (by decide)
      rw [ht] at hhead
      rcases hhead with e | e <;> exact absurd e (by simp)
    · obtain ⟨t, ht, _⟩ := head_of_shape '-' _ _ h (by decide)
      rw [ht] at hhead
      rcases hhead with e | e <;> exact absurd e (by simp)
    · rw [h] at hhead
      rcases hhead with e | e <;> exact absurd e (by decide)
  · intro hhead
    have hZD : 'Z' ∉ p.Designator.data ∧ '+' ∉ p.Designator.data := by
      rcases hD with h | h | h | h | h | h
      · obtain ⟨t, ht, _⟩ := head_of_shape 'Z' _ _ h (by decide)
        rw [ht] at hhead
        rcases hhead with e | e
        · exact absurd e (by simp)
        · exact absurd e (by simp)
      · obtain ⟨t, ht, _⟩ := head_of_shape '+' _ _ h (by decide)
        rw [ht] at hhead
        rcases hhead with e | e
        · exact absurd e (by simp)
        · exact absurd e (by simp)
      · obtain ⟨t, ht, _⟩ := head_of_shape '+' _ _ h (by decide)
        rw [ht] at hhead
        rcases hhead with e | e
        · exact absurd e (by simp)
        · exact absurd e (by simp)
      · exact ⟨not_mem_of_shape _ _ _ h (by decide) (by decide),
          not_mem_of_shape _ _ _ h (by decide) (by decide)⟩
      · exact ⟨not_mem_of_shape _ _ _ h (by decide) (by decide),
          not_mem_of_shape _ _ _ h (by decide) (by decide)⟩
      · rw [h]
        exact ⟨by simp, by simp⟩
    have hZ : 'Z' ∉ p.Head.data ++ '.' :: (p.Fraction.data ++ p.Designator.data) := by
      simp only [List.mem_append, List.mem_cons, not_or]
      exact ⟨hZH, by decide, hZF, hZD.1⟩
    have hP : '+' ∉ p.Head.data ++ '.' :: (p.Fraction.data ++ p.Designator.data) := by
      simp only [List.mem_append, List.mem_cons, not_or]
      exact ⟨hPH, by decide, hPF, hZD.2⟩
    have hkeep := StringToParse_minus_or_none p hdotH hmH hZ hP
    refine ⟨hkeep, fun h3 => ?_⟩
    rw [hkeep]
    exact p.text_ne_truncated h3

/-- C12, at two failing inputs: six fractional digits without a designator,
and with the designator `-05:00`; both texts reach the ISO-8601 parser
untouched. -/
theorem parse_date_time_truncates_only_zulu_and_plus_witness :
    (IsoDateTime.mk "2023-01-02T03:04:05" "123456" "").wellFormed = true
    ∧ (StringToParse "2023-01-02T03:04:05.123456" = "2023-01-02T03:04:05.123456"
        ∧ StringToParse "2023-01-02T03:04:05.123456" ≠ "2023-01-02T03:04:05.123")
    ∧ (IsoDateTime.mk "2023-01-02T03:04:05" "123456" "-05:00").wellFormed = true
    ∧ (StringToParse "2023-01-02T03:04:05.123456-05:00" = "2023-01-02T03:04:05.123456-05:00"
        ∧ StringToParse "2023-01-02T03:04:05.123456-05:00" ≠ "2023-01-02T03:04:05.123-05:00") :=
  ⟨by decide,
   ⟨((parse_date_time_truncates_only_zulu_and_plus
        (IsoDateTime.mk "2023-01-02T03:04:05" "123456" "") (by decide)).2
        (Or.inl rfl)).1,
    ((parse_date_time_truncates_only_zulu_and_plus
        (IsoDateTime.mk "2023-01-02T03:04:05" "123456" "") (by decide)).2
        (Or.inl rfl)).2 (by decide)⟩,
   by decide,
   ⟨((parse_date_time_truncates_only_zulu_and_plus
        (IsoDateTime.mk "2023-01-02T03:04:05" "123456" "-05:00") (by decide)).2
        (Or.inr rfl)).1,
    ((parse_date_time_truncates_only_zulu_and_plus
        (IsoDateTime.mk "2023-01-02T03:04:05" "123456" "-05:00") (by decide)).2
        (Or.inr rfl)).2 (by decide)⟩⟩

end IMSZeuzAPI

/-! ## The `Content-Disposition` line of a string part -/

namespace IMSZeuzAPI

open HttpMultipartFormData

/-- The line written by `AddStringPart` has a blank where the line written by
the other members has the equals sign. -/
theorem disposition_with_blanks_ne (Name : String) :
    utf8 ("Content-Disposition: form-data; name = \"" ++ Name ++ "\"")
      ≠ utf8 ("Content-Disposition: form-data; name=\"" ++ Name ++ "\"") := by
  have h1 : utf8 "Content-Disposition: form-data; name = \""
      = utf8 "Content-Disposition: form-data; name" ++ [32, 61, 32, 34] := by decide
  have h2 : utf8 "Content-Disposition: form-data; name=\""
      = utf8 "Content-Disposition: form-data; name" ++ [61, 34] := by decide
  intro h
  rw [utf8_append, utf8_append, utf8_append, utf8_append, h1, h2] at h
  simp only [List.append_assoc] at h
  have h3 := List.append_cancel_left h
  simp only [List.cons_append, List.cons.injEq] at h3
  exact absurd h3.1 (by decide)

theorem mimePart_disposition_inj (b d1 d2 ct : String) (payload : List UInt8)
    (h : mimePart b d1 ct payload = mimePart b d2 ct payload) : utf8 d1 = utf8 d2 := by
  simpa [mimePart] using h

/-- C13. The claim fails on the code: `AddStringPart` writes the line
`Content-Disposition: form-data; name = "<name>"`, with a blank on either side
of the equals sign, while `AddJsonPart` and `AddBinaryPart` write the standard
`Content-Disposition: form-data; name="<name>"`. So the bytes a string part
appends are never those of a part with the standard line, and a string part
and a JSON part of the same name and text differ in this line as well as in
the `Content-Type` line. -/
theorem string_part_disposition_is_not_standard (E : Engine) (s : HttpMultipartFormData)
    (Name Data : String) :
    (s.AddStringPart E Name Data).FormData
        = s.FormData ++ mimePart (s.GetBoundary E).1
            ("Content-Disposition: form-data; name = \"" ++ Name ++ "\"")
            "Content-Type: text/plain; charset=utf-8" (utf8 Data)
    ∧ (s.AddJsonPart E Name Data).FormData
        = s.FormData ++ mimePart (s.GetBoundary E).1
            ("Content-Disposition: form-data; name=\"" ++ Name ++ "\"")
            "Content-Type: application/json; charset=utf-8" (utf8 (toTCHAR Data))
    ∧ (∀ ByteArray : List UInt8,
        (s.AddBinaryPart E Name ByteArray).FormData
          = s.FormData ++ mimePart (s.GetBoundary E).1
              ("Content-Disposition: form-data; name=\"" ++ Name ++ "\"")
              "Content-Type: application/octet-stream" ByteArray)
    ∧ utf8 ("Content-Disposition: form-data; name = \"" ++ Name ++ "\"")
        ≠ utf8 ("Content-Disposition: form-data; name=\"" ++ Name ++ "\"")
    ∧ (s.AddStringPart E Name Data).FormData
        ≠ s.FormData ++ mimePart (s.GetBoundary E).1
            ("Content-Disposition: form-data; name=\"" ++ Name ++ "\"")
            "Content-Type: text/plain; charset=utf-8" (utf8 Data) := by
  refine ⟨by rw [AddStringPart_eq], by rw [AddJsonPart_eq],
    fun ByteArray => by rw [AddBinaryPart_eq], disposition_with_blanks_ne Name, ?_⟩
  rw [AddStringPart_eq]
  intro h
  exact disposition_with_blanks_ne Name
    (mimePart_disposition_inj _ _ _ _ _ (List.append_cancel_left h))

end IMSZeuzAPI

/-! ## The search state and the cursor invariant -/

namespace ShooterGame

open AShooterGameSession

variable {σ ρ τ : Type}

theorem nextCursor_range (c : Int) (n : Nat) (h1 : -1 ≤ c) :
    -1 ≤ nextCursor c n ∧ nextCursor c n ≤ (n : Int) - 1 := by
  unfold nextCursor
  split <;> omega

theorem ChooseBestSession_keeps (g g1 : AShooterGameSession σ ρ)
    (h : ChooseBestSession g = some g1) :
    g1.CurrentSessionSearch = g.CurrentSessionSearch ∧ g1.SearchSettings = g.SearchSettings := by
  cases hs : g.SearchSettings with
  | none => simp [ChooseBestSession, hs] at h
  | some rs =>
    rw [ChooseBestSession_of_some g rs hs] at h
    have h2 := Option.some.inj h
    subst h2
    exact ⟨rfl, hs⟩

theorem ContinueMatchmaking_keeps_search (O : OnlineSubsystem) (g : AShooterGameSession σ ρ)
    (r : AShooterGameSession σ ρ × List (Event ρ)) (h : ContinueMatchmaking O g = some r) :
    r.1.CurrentSessionSearch = g.CurrentSessionSearch := by
  cases hs : g.SearchSettings with
  | none => simp [ContinueMatchmaking, ChooseBestSession, hs] at h
  | some rs =>
    rw [ContinueMatchmaking_of_some O g rs hs] at h
    split at h
    · split at h
      · have h2 := Option.some.inj h
        subst h2
        rfl
      · split at h
        · exact absurd h (by simp)
        · have h2 := Option.some.inj h
          subst h2
          rfl
    · have h2 := Option.some.inj h
      subst h2
      rfl

/-- An operation leaves the search state `NotStarted` only if it found it
so. -/
theorem perform_not_back (mkSession : τ → σ) (op : Operation τ)
    (g g1 : AShooterGameSession σ ρ) (h : op.perform mkSession g = some g1)
    (hne : GetSearchSessionsStatus g ≠ SearchState.NotStarted) :
    GetSearchSessionsStatus g1 ≠ SearchState.NotStarted := by
  cases op with
  | FindSessions =>
    have h2 := Option.some.inj h
    subst h2
    simp [GetSearchSessionsStatus, FindSessions]
  | OnFindSessionsComplete Response =>
    have h2 := Option.some.inj h
    subst h2
    cases hr : Response.Successful <;> simp [GetSearchSessionsStatus, OnFindSessionsComplete, hr]
  | OnCreateSessionComplete Response =>
    have h2 := Option.some.inj h
    subst h2
    exact hne
  | ResetBestSessionVars =>
    have h2 := Option.some.inj h
    subst h2
    exact hne
  | ChooseBestSession =>
    have h2 := (ChooseBestSession_keeps g g1 h).1
    simpa [GetSearchSessionsStatus, h2] using hne
  | OnNoMatchesAvailable =>
    have h2 := Option.some.inj h
    subst h2
    exact hne
  | ContinueMatchmaking O =>
    simp only [Operation.perform, Option.map_eq_some'] at h
    obtain ⟨r, hr, rfl⟩ := h
    have h2 := ContinueMatchmaking_keeps_search O g r hr
    simpa [GetSearchSessionsStatus, h2] using hne
  | StartMatchmaking O =>
    simp only [Operation.perform, Option.map_eq_some'] at h
    obtain ⟨r, hr, rfl⟩ := h
    have h2 := ContinueMatchmaking_keeps_search O (ResetBestSessionVars g) r hr
    have h3 : r.1.CurrentSessionSearch = g.CurrentSessionSearch := h2
    simpa [GetSearchSessionsStatus, h3] using hne

theorem performAll_not_back (mkSession : τ → σ) (ops : List (Operation τ))
    (g g1 : AShooterGameSession σ ρ) (h : performAll mkSession ops g = some g1)
    (hne : GetSearchSessionsStatus g ≠ SearchState.NotStarted) :
    GetSearchSessionsStatus g1 ≠ SearchState.NotStarted := by
  induction ops generalizing g with
  | nil =>
    have h2 := Option.some.inj h
    subst h2
    exact hne
  | cons op ops ih =>
    simp only [performAll, Option.bind_eq_some] at h
    obtain ⟨g2, hg2, hrest⟩ := h
    exact ih g2 hrest (perform_not_back mkSession op g g2 hg2 hne)

/-- The cursor invariant holds along every run of `ChooseBestSession`. -/
theorem chooseTimes_invariant (g : AShooterGameSession σ ρ) (rs : List ρ)
    (hs : g.SearchSettings = some rs) (h1 : -1 ≤ g.BestSessionIdx) (k : Nat) :
    ∃ g1, chooseTimes k g = some g1 ∧ g1.SearchSettings = some rs
      ∧ -1 ≤ g1.BestSessionIdx ∧ (k ≠ 0 → g1.BestSessionIdx ≤ (rs.length : Int) - 1) := by
  induction k with
  | zero => exact ⟨g, rfl, hs, h1, fun h => absurd rfl h⟩
  | succ k ih =>
    obtain ⟨g1, e1, s1, l1, _⟩ := ih
    refine ⟨{ g1 with BestSessionIdx := nextCursor g1.BestSessionIdx rs.length }, ?_, s1, ?_, ?_⟩
    · rw [chooseTimes, e1, Option.some_bind, ChooseBestSession_of_some g1 rs s1]
    · exact (nextCursor_range _ _ l1).1
    · intro _
      exact (nextCursor_range _ _ l1).2

/-- C11. `GetSearchSessionsStatus` returns the stored search state.
`FindSessions` sets it to `InProgress`. `OnFindSessionsComplete` sets it to
`Done` and broadcasts `true` when the response is successful (also with an
empty session list), and sets it to `Failed` and broadcasts `false`
otherwise, so `Done` is reached exactly on success. No sequence of operations
takes a state other than `NotStarted` back to `NotStarted`. -/
theorem search_state_follows_machine (mkSession : τ → σ) (g : AShooterGameSession σ ρ)
    (Response : ListSessionsV0Response τ) :
    GetSearchSessionsStatus g = g.CurrentSessionSearch.SearchState
    ∧ GetSearchSessionsStatus (FindSessions g).1 = SearchState.InProgress
    ∧ (Response.Successful = true →
        GetSearchSessionsStatus (OnFindSessionsComplete mkSession Response g).1
            = SearchState.Done
        ∧ findSessionsBroadcasts (OnFindSessionsComplete mkSession Response g).2 = [true])
    ∧ (Response.Successful = false →
        GetSearchSessionsStatus (OnFindSessionsComplete mkSession Response g).1
            = SearchState.Failed
        ∧ findSessionsBroadcasts (OnFindSessionsComplete mkSession Response g).2 = [false])
    ∧ (GetSearchSessionsStatus (OnFindSessionsComplete mkSession Response g).1
            = SearchState.Done
        ↔ Response.Successful = true)
    ∧ GetSearchSessionsStatus
          (OnFindSessionsComplete mkSession { Successful := true, Sessions := [] } g).1
        = SearchState.Done
    ∧ ∀ (ops : List (Operation τ)) (g1 : AShooterGameSession σ ρ),
        performAll mkSession ops g = some g1 →
        GetSearchSessionsStatus g ≠ SearchState.NotStarted →
        GetSearchSessionsStatus g1 ≠ SearchState.NotStarted := by
  refine ⟨rfl, rfl, ?_, ?_, ?_, ?_, ?_⟩
  · intro hs
    simp [GetSearchSessionsStatus, OnFindSessionsComplete, hs, findSessionsBroadcasts]
  · intro hs
    simp [GetSearchSessionsStatus, OnFindSessionsComplete, hs, findSessionsBroadcasts]
  · cases hs : Response.Successful <;>
      simp [GetSearchSessionsStatus, OnFindSessionsComplete, hs]
  · simp [GetSearchSessionsStatus, OnFindSessionsComplete]
  · intro ops g1 h hne
    exact performAll_not_back mkSession ops g g1 h hne

/-- C11, at a concrete input: a search in progress that fails, is started
again and succeeds with two sessions does not return to `NotStarted`. -/
theorem search_state_follows_machine_witness :
    performAll (fun n : Nat => n)
        [Operation.OnFindSessionsComplete { Successful := false, Sessions := [] },
          Operation.FindSessions,
          Operation.OnFindSessionsComplete { Successful := true, Sessions := [5, 6] },
          Operation.StartMatchmaking sampleOnline]
        (sampleSession [10])
      = some { sampleSession [10] with
          BestSessionIdx := 0
          CurrentSessionSearch :=
            { SearchResults := [5, 6], MaxSearchResults := 2, SearchState := SearchState.Done } }
    ∧ GetSearchSessionsStatus (sampleSession [10]) ≠ SearchState.NotStarted
    ∧ GetSearchSessionsStatus
          ({ sampleSession [10] with
              BestSessionIdx := 0
              CurrentSessionSearch :=
                { SearchResults := [5, 6], MaxSearchResults := 2,
                  SearchState := SearchState.Done } } : AShooterGameSession Nat Nat)
        ≠ SearchState.NotStarted :=
  ⟨by decide, by decide,
   (search_state_follows_machine (fun n : Nat => n) (sampleSession [10])
      { Successful := true, Sessions := [] }).2.2.2.2.2.2
      [Operation.OnFindSessionsComplete { Successful := false, Sessions := [] },
        Operation.FindSessions,
        Operation.OnFindSessionsComplete { Successful := true, Sessions := [5, 6] },
        Operation.StartMatchmaking sampleOnline]
      _ (by decide) (by decide)⟩

/-- C14. With search results `rs` of length `n`: for a cursor `c` with
`-1 ≤ c ≤ n - 1`, `ChooseBestSession` leaves the cursor `c + 1` if
`c + 1 < n` and `-1` otherwise, and the new cursor is again between `-1` and
`n - 1`. `ResetBestSessionVars` establishes this range, and it holds after any
number of calls of `ChooseBestSession`. From the cursor `-1` on a non-empty
list the next call selects index `0`. `ContinueMatchmaking` never reads the
result list out of range: it always returns, and when it reads, the index is
below `n`. -/
theorem cursor_stays_in_range (O : OnlineSubsystem) (g : AShooterGameSession σ ρ)
    (rs : List ρ) (hs : g.SearchSettings = some rs) :
    (-1 ≤ g.BestSessionIdx → g.BestSessionIdx ≤ (rs.length : Int) - 1 →
        ∃ g1, ChooseBestSession g = some g1
          ∧ g1.BestSessionIdx
              = (if g.BestSessionIdx + 1 < (rs.length : Int) then g.BestSessionIdx + 1 else -1)
          ∧ -1 ≤ g1.BestSessionIdx ∧ g1.BestSessionIdx ≤ (rs.length : Int) - 1
          ∧ g1.SearchSettings = some rs)
    ∧ ((ResetBestSessionVars g).BestSessionIdx = -1
        ∧ -1 ≤ (ResetBestSessionVars g).BestSessionIdx
        ∧ (ResetBestSessionVars g).BestSessionIdx ≤ (rs.length : Int) - 1)
    ∧ (∀ k : Nat, ∃ g1, chooseTimes k (ResetBestSessionVars g) = some g1
          ∧ -1 ≤ g1.BestSessionIdx ∧ g1.BestSessionIdx ≤ (rs.length : Int) - 1)
    ∧ (rs ≠ [] → g.BestSessionIdx = -1 →
        ∃ g1, ChooseBestSession g = some g1 ∧ g1.BestSessionIdx = 0)
    ∧ (∃ r, ContinueMatchmaking O g = some r)
    ∧ (0 ≤ nextCursor g.BestSessionIdx rs.length →
        (nextCursor g.BestSessionIdx rs.length).toNat < rs.length) := by
  have hin : 0 ≤ nextCursor g.BestSessionIdx rs.length →
      (nextCursor g.BestSessionIdx rs.length).toNat < rs.length := by
    intro h0
    have : nextCursor g.BestSessionIdx rs.length < (rs.length : Int) := by
      revert h0; unfold nextCursor; split <;> omega
    omega
  refine ⟨?_, ?_, ?_, ?_, ?_, hin⟩
  · intro h1 _
    refine ⟨_, ChooseBestSession_of_some g rs hs, rfl, ?_, ?_, hs⟩
    · exact (nextCursor_range _ _ h1).1
    · exact (nextCursor_range _ _ h1).2
  · refine ⟨rfl, by simp [ResetBestSessionVars], ?_⟩
    simp only [ResetBestSessionVars]
    omega
  · intro k
    obtain ⟨g1, e1, _, l1, u1⟩ :=
      chooseTimes_invariant (ResetBestSessionVars g) rs hs (by simp [ResetBestSessionVars]) k
    refine ⟨g1, e1, l1, ?_⟩
    cases k with
    | zero =>
      have h2 := Option.some.inj e1
      subst h2
      simp only [ResetBestSessionVars]
      omega
    | succ k => exact u1 (by omega)
  · intro hne hc
    refine ⟨_, ChooseBestSession_of_some g rs hs, ?_⟩
    have hpos : 0 < rs.length := List.length_pos.mpr hne
    have hlt : (-1 : Int) + 1 < (rs.length : Int) := by omega
    show nextCursor g.BestSessionIdx rs.length = 0
    rw [hc, nextCursor, if_pos hlt]
    rfl
  · rw [ContinueMatchmaking_of_some O g rs hs]
    by_cases h0 : 0 ≤ nextCursor g.BestSessionIdx rs.length
    · rw [if_pos h0, List.getElem?_eq_getElem (hin h0)]
      exact ⟨_, rfl⟩
    · rw [if_neg h0]
      exact ⟨_, rfl⟩

/-- C14, at a concrete input: three results and the cursor at the last
index; the next call leaves `-1`. -/
theorem cursor_stays_in_range_witness :
    ({ sampleSession [10, 20, 30] with BestSessionIdx := 2 }
        : AShooterGameSession Nat Nat).SearchSettings = some [10, 20, 30]
    ∧ ∃ g1, ChooseBestSession
              ({ sampleSession [10, 20, 30] with BestSessionIdx := 2 }
                : AShooterGameSession Nat Nat) = some g1
        ∧ g1.BestSessionIdx
            = (if (2 : Int) + 1 < (([10, 20, 30] : List Nat).length : Int) then (2 : Int) + 1
               else -1)
        ∧ -1 ≤ g1.BestSessionIdx
        ∧ g1.BestSessionIdx ≤ ((([10, 20, 30] : List Nat).length : Nat) : Int) - 1
        ∧ g1.SearchSettings = some [10, 20, 30] :=
  ⟨rfl,
   (cursor_stays_in_range sampleOnline
      { sampleSession [10, 20, 30] with BestSessionIdx := 2 } [10, 20, 30] rfl).1
      (by decide) (by decide)⟩

end ShooterGame
